import Mathlib

/-!
# phantasma: orchestration and routing layer

A shallow embedding of the Go packages `apis`, `rproxy`, `apps` and `forms`
of `mix3/phantasma`, followed by theorems about it.

Conventions of the embedding.

* A Go `string` is a `String`.  The separators the program looks for
  (`:`, `/`, `=`) are ASCII, positions returned by `strings.LastIndex` are
  only used to slice the string they were computed on, and UTF-8 keeps the
  code point order, so counting positions in characters instead of bytes
  changes no result.
* A Go `(value, error)` result that may also end in a run-time panic is an
  `Outcome`; an `error` alone is an `Option String` holding `err.Error()`.
* A Go `map[string]T` is a finite map with unique keys (`GoMap T`); the
  order in which a `range` loop visits its keys is chosen by the run time
  and is a parameter (`Ambient.rangeOrder`).
* Calls that leave the process (runtime API, init system, file system) are
  answered by the functions stored in `PublicAPIClient`, `DbusConn` and
  `Ambient`; every function that makes such calls also returns the list of
  the calls it made, oldest first.  Log lines are not recorded.
-/

namespace Phantasma

/-! ## Go standard library -/

/-- Splitting of a character list at every occurrence of `sep`. -/
def splitChars (sep : Char) : List Char → List (List Char)
  | [] => [[]]
  | c :: cs =>
    if c = sep then [] :: splitChars sep cs
    else match splitChars sep cs with
      | [] => [[c]]
      | p :: ps => (c :: p) :: ps

/-- Go `strings.Split(s, sep)` for a separator of one character. -/
def stringsSplit (s : String) (sep : Char) : List String :=
  (splitChars sep s.data).map String.mk

/-- Scan for `strings.LastIndex`: `i` is the position of the head of the
list, `found` the last position seen so far. -/
def lastIndexFrom (sep : Char) : List Char → Nat → Int → Int
  | [], _, found => found
  | c :: cs, i, found => lastIndexFrom sep cs (i + 1) (if c = sep then (i : Int) else found)

/-- Go `strings.LastIndex(s, sep)` for a separator of one character: the
position of the last occurrence, `-1` when there is none. -/
def stringsLastIndex (s : String) (sep : Char) : Int :=
  lastIndexFrom sep s.data 0 (-1)

/-- Go slice expression `s[:hi]`. -/
def sliceTo (s : String) (hi : Int) : String := ⟨s.data.take hi.toNat⟩

/-- Go slice expression `s[lo:]`. -/
def sliceFrom (s : String) (lo : Int) : String := ⟨s.data.drop lo.toNat⟩

/-- Go `fmt.Sprintf("%d", n)`. -/
def sprintfD (n : Int) : String :=
  if n < 0 then ⟨'-' :: Nat.toDigits 10 n.natAbs⟩ else ⟨Nat.toDigits 10 n.natAbs⟩

/-- The errors of `strconv`: `ErrSyntax` and `ErrRange`. -/
inductive NumError where
  | ErrSyntax
  | ErrRange
  deriving DecidableEq

/-- The loop of Go `strconv.ParseUint(s, 10, 64)` over the bytes of `s`,
with `n` the `uint64` accumulated so far: the value and the error. -/
def parseUintLoop : List Char → Nat → Nat × Option NumError
  | [], n => (n, none)
  | c :: cs, n =>
    if '0' ≤ c ∧ c ≤ '9' then
      if (2 ^ 64 - 1) / 10 + 1 ≤ n then (2 ^ 64 - 1, some NumError.ErrRange)
      else
        if (n * 10 % 2 ^ 64 + (c.toNat - '0'.toNat)) % 2 ^ 64 < n * 10 % 2 ^ 64 ∨
            2 ^ 64 - 1 < (n * 10 % 2 ^ 64 + (c.toNat - '0'.toNat)) % 2 ^ 64 then
          (2 ^ 64 - 1, some NumError.ErrRange)
        else parseUintLoop cs ((n * 10 % 2 ^ 64 + (c.toNat - '0'.toNat)) % 2 ^ 64)
    else (0, some NumError.ErrSyntax)

/-- Go `strconv.ParseUint(s, 10, 64)`. -/
def ParseUint (s : List Char) : Nat × Option NumError :=
  if s = [] then (0, some NumError.ErrSyntax) else parseUintLoop s 0

/-- Go `strconv.ParseInt(s, 10, 0)` on a 64-bit platform: an optional sign,
then `ParseUint`; a syntax error gives `0`, and a magnitude beyond the
bound of its sign (also the `2^64 - 1` of a range error of `ParseUint`)
gives that bound with a range error. -/
def ParseInt (s : String) : Int × Option NumError :=
  if s.data = [] then (0, some NumError.ErrSyntax)
  else
    let neg := s.data.head? = some '-'
    let digits := if s.data.head? = some '+' ∨ s.data.head? = some '-' then s.data.tail else s.data
    match ParseUint digits with
    | (_, some NumError.ErrSyntax) => (0, some NumError.ErrSyntax)
    | (un, _) =>
      if ¬ neg ∧ 2 ^ 63 ≤ un then ((2 ^ 63 : Int) - 1, some NumError.ErrRange)
      else if neg ∧ 2 ^ 63 < un then (-(2 ^ 63 : Int), some NumError.ErrRange)
      else if neg then (-(un : Int), none)
      else ((un : Int), none)

/-- Go `strconv.Atoi(s)` on a 64-bit platform, the `int` of
`ParseInt(s, 10, 0)`: the value and whether an error was returned.  A
syntax error gives `0`; a range error gives the nearest bound and is
reported as soon as the digits read so far overflow, whatever follows. -/
def Atoi (s : String) : Int × Bool :=
  ((ParseInt s).1, (ParseInt s).2.isSome)

/-- Go comparison `a < b` of two strings, on their character lists. -/
def charsLess : List Char → List Char → Bool
  | _, [] => false
  | [], _ :: _ => true
  | a :: as, b :: bs =>
    if a.toNat < b.toNat then true
    else if b.toNat < a.toNat then false
    else charsLess as bs

/-- Go comparison `a <= b` of two strings. -/
def stringLE (a b : String) : Prop := charsLess b.data a.data = false

instance : DecidableRel stringLE := fun a b =>
  inferInstanceAs (Decidable (charsLess b.data a.data = false))

/-- Go `sort.Strings`: the ascending rearrangement of the list. -/
def sortStrings (l : List String) : List String := l.insertionSort stringLE

/-- A Go `map[string]T`. -/
abbrev GoMap (ν : Type) := AList (fun _ : String => ν)

/-- Result of a Go function returning `(value, error)`; `panic` is a
run-time panic (nil dereference, index out of range). -/
inductive Outcome (α : Type) where
  | ok (v : α)
  | error (msg : String)
  | panic
  deriving DecidableEq

/-! ## Package `options` -/

namespace options

structure Options where
  Host : String
  Port : Int
  ApiEndpoint : String
  DefaultPort : Int
  DefaultNet : String
  Domain : String
  InsecureOptions : String
  TmpDir : String
  Specific : String
  ServiceDir : String
  Rkt : String
  StaticDir : String
  deriving DecidableEq

end options

/-! ## Package `forms` -/

namespace forms

structure Env where
  Key : String
  Val : String
  deriving DecidableEq

abbrev Envs := List Env

structure LaunchForm where
  ImageId : String
  ImageName : String
  Subdomain : String
  Port : Int
  Net : String
  Envs : Envs
  deriving DecidableEq

structure TerminateForm where
  Subdomain : String
  deriving DecidableEq

end forms

/-! ## Messages of the runtime API (`rkt/api/v1alpha`) -/

namespace v1alpha

/-- Modelled from the spec: the generated message `v1alpha.KeyValue` (the
package `rkt/api/v1alpha` is not among the sources), a key with a value. -/
structure KeyValue where
  Key : String
  Value : String
  deriving DecidableEq

/-- Modelled from the spec: the generated message `v1alpha.Image`,
"Image: id, name, version, raw manifest bytes". -/
structure Image where
  Id : String
  Name : String
  Version : String
  Manifest : String
  deriving DecidableEq

/-- Modelled from the spec: the generated message `v1alpha.ImageFilter`,
with the three fields the program fills: "prefix exact, basename exact,
version as a label match". -/
structure ImageFilter where
  Prefixes : List String
  BaseNames : List String
  Labels : List KeyValue
  deriving DecidableEq

/-- Modelled from the spec: the generated message `v1alpha.Network`, a
network name with the address of the instance on it. -/
structure Network where
  Name : String
  Ipv4 : String
  deriving DecidableEq

/-- Modelled from the spec: the generated message `v1alpha.App`; `Image` is
a pointer and may be nil. -/
structure App where
  Name : String
  Image : Option Image
  deriving DecidableEq

/-- Modelled from the spec: the generated message `v1alpha.Pod` with the
fields the program reads: id, apps, networks and the embedded manifest. -/
structure Pod where
  Id : String
  Apps : List App
  Networks : List Network
  Manifest : String
  deriving DecidableEq

/-- Modelled from the spec: the generated enumeration `v1alpha.PodState`;
only the running state is named by the program. -/
inductive PodState where
  | POD_STATE_RUNNING
  | POD_STATE_OTHER
  deriving DecidableEq

/-- Modelled from the spec: the generated message `v1alpha.PodFilter`,
"list instances by state + annotation filters". -/
structure PodFilter where
  States : List PodState
  Annotations : List KeyValue
  deriving DecidableEq

/-- Modelled from the spec: the generated client `v1alpha.PublicAPIClient`,
"list images by filters; inspect image by id; list instances by state +
annotation filters; inspect instance by id".  Each field is the answer of
the runtime: the error of the call, or what `GetImage`, `GetImages`,
`GetPods`, `GetPod` return on the response. -/
structure PublicAPIClient where
  InspectImage : String → Except String (Option Image)
  ListImages : ImageFilter → Except String (List Image)
  ListPods : PodFilter → Except String (List Pod)
  InspectPod : String → Except String (Option Pod)

end v1alpha

/-! ## Types of `appc/spec/schema` -/

namespace schema

structure EnvironmentVariable where
  Name : String
  Value : String
  deriving DecidableEq

abbrev Environment := List EnvironmentVariable

/-- Modelled from the spec: the method `Environment.Set(name, value)` of
`appc/spec/schema/types`, which is not among the sources.  The spec has the
overlay act on "the image's declared environment table in place (later
value for a duplicate key wins, original declared values are overwritten,
not layered separately)": the first variable of that name is overwritten
where it stands, and a new variable is appended when there is none. -/
def Environment.Set : Environment → String → String → Environment
  | [], name, value => [⟨name, value⟩]
  | env :: rest, name, value =>
    if env.Name = name then ⟨name, value⟩ :: rest
    else env :: Environment.Set rest name value

/-- Modelled from the spec: the method `Environment.Get(name)` of
`appc/spec/schema/types`, which is not among the sources: the value the
environment table gives to a name, that of the first variable so named. -/
def Environment.Get : Environment → String → Option String
  | [], _ => none
  | env :: rest, name => if env.Name = name then some env.Value else Environment.Get rest name

/-- Library type `types.App`; the fields other than the environment (exec,
user, group, ...) are carried along in `Other`. -/
structure App where
  Environment : Environment
  Other : String
  deriving DecidableEq

structure Label where
  Name : String
  Value : String
  deriving DecidableEq

structure ImageManifest where
  Name : String
  Labels : List Label
  App : Option App
  deriving DecidableEq

structure Hash where
  typ : String
  Val : String
  deriving DecidableEq

structure RuntimeImage where
  Name : String
  ID : Hash
  Labels : List Label
  deriving DecidableEq

structure RuntimeApp where
  Name : String
  Image : RuntimeImage
  App : Option App
  deriving DecidableEq

structure Annotation where
  Name : String
  Value : String
  deriving DecidableEq

structure PodManifest where
  Apps : List RuntimeApp
  Annotations : List Annotation
  deriving DecidableEq

/-- Library function `schema.BlankPodManifest()`. -/
def BlankPodManifest : PodManifest := { Apps := [], Annotations := [] }

end schema

/-! ## Calls that leave the process -/

/-- One call made to the runtime API, the init system or the file system. -/
inductive Call where
  | InspectImage (id : String)
  | ListImages (filter : v1alpha.ImageFilter)
  | ListPods (filter : v1alpha.PodFilter)
  | InspectPod (id : String)
  | Reload
  | RestartUnit (name mode : String)
  | StopUnit (name mode : String)
  | TempFile (dir pattern : String)
  | WriteFile (path content : String)
  | Rename (oldpath newpath : String)
  | Remove (path : String)
  deriving DecidableEq

/-- Connection to the init system (`go-systemd/dbus`).  `Reload` is the
error of the reload, if any; `RestartUnit` and `StopUnit` give the error of
issuing the job, or else the job result later delivered on the channel. -/
structure DbusConn where
  Reload : Option String
  RestartUnit : String → String → Except String String
  StopUnit : String → String → Except String String

/-- Parsed destination of a backend (`net/url.URL`). -/
structure URL where
  Scheme : String
  Host : String
  deriving DecidableEq

/-- Library functions and run-time choices the program depends on: the
manifest codec of `appc/spec`, the file system, `url.Parse`, and the order
in which a `range` over a map with the given keys visits them. -/
structure Ambient where
  UnmarshalImageManifest : String → Except String schema.ImageManifest
  NewHash : String → Except String schema.Hash
  MarshalPodManifest : schema.PodManifest → Except String String
  UnmarshalPodManifest : String → Except String schema.PodManifest
  TempFile : String → String → Except String String
  WriteFile : String → String → Option String
  Rename : String → String → Option String
  urlParse : String → Except String URL
  rangeOrder : List String → List String

/-! ## Package `apis` -/

namespace apis

structure Api where
  apiEndpoint : String
  apiClient : v1alpha.PublicAPIClient
  dbusConn : DbusConn
  opts : options.Options
  ambient : Ambient

def getImageById (api : Api) (id : String) : Outcome v1alpha.Image × List Call :=
  match api.apiClient.InspectImage id with
  | .error err => (.error ("could not InspectImageRequest: " ++ err), [Call.InspectImage id])
  | .ok none => (.error ("image not found: id " ++ id), [Call.InspectImage id])
  | .ok (some image) => (.ok image, [Call.InspectImage id])

/-- Returns `(prefix, name, version, err)`. -/
def splitImageName (imageName : String) : String × String × String × Option String :=
  let nameAndVersion := stringsSplit imageName ':'
  let name := nameAndVersion.getD 0 ""
  let version := if 1 < nameAndVersion.length then nameAndVersion.getD 1 "" else ""
  if 0 < stringsLastIndex name '/' then
    (sliceTo name (stringsLastIndex name '/'), sliceFrom name (stringsLastIndex name '/' + 1),
      version, none)
  else
    ("", name, version, none)

/-- The filter `getImageByName` builds from the three parts of a reference. -/
def imageFilter (pfx name version : String) : v1alpha.ImageFilter :=
  { Prefixes := if pfx ≠ "" then [pfx] else [],
    BaseNames := if name ≠ "" then [name] else [],
    Labels := if version ≠ "" then [⟨"version", version⟩] else [] }

def getImageByName (api : Api) (name : String) : Outcome v1alpha.Image × List Call :=
  match splitImageName name with
  | (_, _, _, some err) => (.error err, [])
  | (pfx, name, version, none) =>
    let filter := imageFilter pfx name version
    match api.apiClient.ListImages filter with
    | .error err => (.error ("could not ListImagesRequest: " ++ err), [Call.ListImages filter])
    | .ok images =>
      if images.length = 0 then
        (.error ("image not found: name " ++ name), [Call.ListImages filter])
      else if 1 < images.length then
        (.error ("image found, but duplicated: name " ++ name), [Call.ListImages filter])
      else
        match images.head? with
        | none => (.panic, [Call.ListImages filter])
        | some image =>
          ((getImageById api image.Id).1, Call.ListImages filter :: (getImageById api image.Id).2)

/-- The loop `for _, v := range env { imageManifest.App.Environment.Set(v.Key, v.Val) }`
on the pointer `imageManifest.App`; `none` is the nil dereference of the
first iteration when the manifest declares no app. -/
def overlayEnv : Option schema.App → forms.Envs → Option (Option schema.App)
  | app, [] => some app
  | none, _ :: _ => none
  | some app, v :: rest =>
    overlayEnv (some { app with Environment := app.Environment.Set v.Key v.Val }) rest

/-- The loop `for k, v := range annotationMap` appending one annotation per
entry, in the order the run time visits the keys. -/
def annotationsOf (api : Api) (annotationMap : GoMap String) : List schema.Annotation :=
  (api.ambient.rangeOrder annotationMap.keys).filterMap
    (fun k => (annotationMap.lookup k).map (fun v => ({ Name := k, Value := v } : schema.Annotation)))

def generatePodManifest (api : Api) (image : v1alpha.Image) (annotationMap : GoMap String)
    (env : forms.Envs) : Outcome schema.PodManifest :=
  match api.ambient.UnmarshalImageManifest image.Manifest with
  | .error err => .error err
  | .ok imageManifest =>
    match overlayEnv imageManifest.App env with
    | none => .panic
    | some app =>
      match api.ambient.NewHash image.Id with
      | .error err => .error err
      | .ok id =>
        let splitName := stringsSplit imageManifest.Name '/'
        let name := splitName.getLastD ""
        .ok { Apps := schema.BlankPodManifest.Apps ++
                [{ Name := name,
                   Image := { Name := imageManifest.Name, ID := id, Labels := imageManifest.Labels },
                   App := app }],
              Annotations := schema.BlankPodManifest.Annotations ++ annotationsOf api annotationMap }

def withPrefix (api : Api) (base : String) : String :=
  api.opts.Specific ++ "-" ++ base

def tmpPath (api : Api) (base : String) : String :=
  api.opts.TmpDir ++ "/" ++ base

def unitPath (api : Api) (subdomain : String) : String :=
  api.opts.ServiceDir ++ "/" ++ withPrefix api subdomain

/-- The rendered unit descriptor of `createUnit`. -/
def unitContent (api : Api) (serviceName podManifestJSON : String) : String :=
  "\n[Unit]\nDescription=" ++ serviceName ++
  "\n\n[Service]\nExecStartPre=/bin/sh -c '/bin/echo \\'" ++ podManifestJSON ++ "\\' > " ++
  tmpPath api (serviceName ++ ".manifest") ++
  "'\nExecStart=" ++ api.opts.Rkt ++ " --insecure-options=" ++ api.opts.InsecureOptions ++
  " run --store-only --pod-manifest=" ++ tmpPath api (serviceName ++ ".manifest") ++
  "\nKillMode=mixed\n"

def createUnit (api : Api) (podManifest : schema.PodManifest) (subdomain : String) :
    Option String × List Call :=
  match api.ambient.MarshalPodManifest podManifest with
  | .error err => (some err, [])
  | .ok podManifestJSON =>
    let serviceName := withPrefix api subdomain
    let unit := unitContent api serviceName podManifestJSON
    match api.ambient.TempFile api.opts.TmpDir (withPrefix api "") with
    | .error err => (some err, [Call.TempFile api.opts.TmpDir (withPrefix api "")])
    | .ok tmpFile =>
      match api.ambient.WriteFile tmpFile unit with
      | some err =>
        (some err, [Call.TempFile api.opts.TmpDir (withPrefix api ""),
                    Call.WriteFile tmpFile unit, Call.Remove tmpFile])
      | none =>
        match api.ambient.Rename tmpFile (unitPath api (subdomain ++ ".service")) with
        | some err =>
          (some err, [Call.TempFile api.opts.TmpDir (withPrefix api ""),
                      Call.WriteFile tmpFile unit,
                      Call.Rename tmpFile (unitPath api (subdomain ++ ".service")),
                      Call.Remove tmpFile])
        | none =>
          (none, [Call.TempFile api.opts.TmpDir (withPrefix api ""),
                  Call.WriteFile tmpFile unit,
                  Call.Rename tmpFile (unitPath api (subdomain ++ ".service"))])

/-- The map literal of `runByImage`. -/
def launchAnnotations (api : Api) (subdomain port net : String) : GoMap String :=
  ((((∅ : GoMap String).insert (api.opts.Specific ++ "-is") "1").insert
    (api.opts.Specific ++ "-subdomain") subdomain).insert
    (api.opts.Specific ++ "-port") port).insert
    (api.opts.Specific ++ "-net") net

/-- The part of `runByImage` after the unit is installed: reload, issue the
restart job, wait for its result. -/
def startUnit (api : Api) (subdomain : String) : Outcome Unit × List Call :=
  match api.dbusConn.Reload with
  | some err => (.error err, [Call.Reload])
  | none =>
    match api.dbusConn.RestartUnit (withPrefix api (subdomain ++ ".service")) "replace" with
    | .error err =>
      (.error err, [Call.Reload, Call.RestartUnit (withPrefix api (subdomain ++ ".service")) "replace"])
    | .ok job =>
      if job ≠ "done" then
        (.error ("job is not done: " ++ job),
          [Call.Reload, Call.RestartUnit (withPrefix api (subdomain ++ ".service")) "replace"])
      else
        (.ok (), [Call.Reload, Call.RestartUnit (withPrefix api (subdomain ++ ".service")) "replace"])

def runByImage (api : Api) (image : v1alpha.Image) (subdomain port net : String)
    (env : forms.Envs) : Outcome Unit × List Call :=
  match generatePodManifest api image (launchAnnotations api subdomain port net) env with
  | .error err => (.error err, [])
  | .panic => (.panic, [])
  | .ok podManifest =>
    match createUnit api podManifest subdomain with
    | (some err, calls) => (.error err, calls)
    | (none, calls) => ((startUnit api subdomain).1, calls ++ (startUnit api subdomain).2)

def RunByImageId (api : Api) (imageId subdomain port net : String) (env : forms.Envs) :
    Outcome Unit × List Call :=
  match getImageById api imageId with
  | (.error err, calls) => (.error err, calls)
  | (.panic, calls) => (.panic, calls)
  | (.ok image, calls) =>
    ((runByImage api image subdomain port net env).1,
      calls ++ (runByImage api image subdomain port net env).2)

def RunByImageName (api : Api) (imageName subdomain port net : String) (env : forms.Envs) :
    Outcome Unit × List Call :=
  match getImageByName api imageName with
  | (.error err, calls) => (.error err, calls)
  | (.panic, calls) => (.panic, calls)
  | (.ok image, calls) =>
    ((runByImage api image subdomain port net env).1,
      calls ++ (runByImage api image subdomain port net env).2)

def Stop (api : Api) (subdomain : String) : Outcome Unit × List Call :=
  match api.dbusConn.StopUnit (withPrefix api (subdomain ++ ".service")) "replace" with
  | .error err =>
    (.error err, [Call.StopUnit (withPrefix api (subdomain ++ ".service")) "replace"])
  | .ok job =>
    if job ≠ "done" then
      (.error ("job is not done: " ++ job),
        [Call.StopUnit (withPrefix api (subdomain ++ ".service")) "replace"])
    else
      (.ok (), [Call.StopUnit (withPrefix api (subdomain ++ ".service")) "replace"])

structure PodInfo where
  Uuid : String
  Image : String
  Subdomain : String
  Port : Int
  Net : String
  Host : String
  Running : Bool
  Env : List forms.Env
  deriving DecidableEq

/-- Body of the loop of `podToPodInfo` over the annotations of the manifest. -/
def annotationStep (api : Api) (info : PodInfo) (v : schema.Annotation) : PodInfo :=
  let info := if v.Name = api.opts.Specific ++ "-subdomain" then
    { info with Subdomain := v.Value } else info
  let info := if v.Name = api.opts.Specific ++ "-port" then
    { info with Port := (Atoi v.Value).1 } else info
  if v.Name = api.opts.Specific ++ "-net" then { info with Net := v.Value } else info

/-- Body of the loop of `podToPodInfo` over the networks of the instance. -/
def networkStep (info : PodInfo) (v : v1alpha.Network) : PodInfo :=
  if v.Name = info.Net then { info with Host := v.Ipv4 } else info

/-- Body of the loop of `podToPodInfo` over the declared environment. -/
def envStep (info : PodInfo) (v : schema.EnvironmentVariable) : PodInfo :=
  { info with Env := info.Env ++ [{ Key := v.Name, Val := v.Value }] }

/-- The manifest `podToPodInfo` works on: `UnmarshalJSON` leaves the blank
manifest untouched when it fails, and its error is dropped. -/
def decodedPodManifest (api : Api) (pod : v1alpha.Pod) : schema.PodManifest :=
  match api.ambient.UnmarshalPodManifest pod.Manifest with
  | .ok podManifest => podManifest
  | .error _ => schema.BlankPodManifest

/-- The result is `none` when the function panics: `pod.Apps[0]` or
`podManifest.Apps[0]` out of range, or a nil `Image` or `App` pointer. -/
def podToPodInfo (api : Api) (pod : v1alpha.Pod) : Option PodInfo :=
  let podManifest := decodedPodManifest api pod
  match pod.Apps.head? with
  | none => none
  | some app0 =>
    match app0.Image with
    | none => none
    | some image0 =>
      let info : PodInfo :=
        { Uuid := pod.Id, Image := image0.Name ++ ":" ++ image0.Version,
          Subdomain := "", Port := 0, Net := "", Host := "", Running := true, Env := [] }
      let info := podManifest.Annotations.foldl (annotationStep api) info
      let info := pod.Networks.foldl networkStep info
      match podManifest.Apps.head? with
      | none => none
      | some runtimeApp =>
        match runtimeApp.App with
        | none => none
        | some app => some (app.Environment.foldl envStep info)

/-- The loop of `PodInfoMap` over the listed instances. -/
def podInfoMapLoop (api : Api) : List v1alpha.Pod → GoMap PodInfo →
    Outcome (GoMap PodInfo) × List Call
  | [], result => (.ok result, [])
  | pod :: rest, result =>
    match api.apiClient.InspectPod pod.Id with
    | .error err => (.error ("could not InspectPodRequest: " ++ err), [Call.InspectPod pod.Id])
    | .ok none =>
      ((podInfoMapLoop api rest result).1, Call.InspectPod pod.Id :: (podInfoMapLoop api rest result).2)
    | .ok (some inspectPod) =>
      match podToPodInfo api inspectPod with
      | none => (.panic, [Call.InspectPod pod.Id])
      | some info =>
        ((podInfoMapLoop api rest (result.insert info.Subdomain info)).1,
          Call.InspectPod pod.Id :: (podInfoMapLoop api rest (result.insert info.Subdomain info)).2)

/-- The filter of `PodInfoMap`: running instances carrying the marker. -/
def markerFilter (api : Api) : v1alpha.PodFilter :=
  { States := [v1alpha.PodState.POD_STATE_RUNNING],
    Annotations := [{ Key := api.opts.Specific ++ "-is", Value := "1" }] }

def PodInfoMap (api : Api) : Outcome (GoMap PodInfo) × List Call :=
  match api.apiClient.ListPods (markerFilter api) with
  | .error err => (.error ("could not ListPodsRequest: " ++ err), [Call.ListPods (markerFilter api)])
  | .ok pods =>
    ((podInfoMapLoop api pods ∅).1, Call.ListPods (markerFilter api) :: (podInfoMapLoop api pods ∅).2)

/-- The loop of `GetPodInfo` over the listed instances. -/
def getPodInfoLoop (api : Api) (subdomain : String) : List v1alpha.Pod →
    Outcome PodInfo × List Call
  | [] =>
    (.ok { Uuid := "", Image := "", Subdomain := subdomain, Port := 0, Net := "", Host := "",
           Running := false, Env := [] }, [])
  | pod :: rest =>
    match api.apiClient.InspectPod pod.Id with
    | .error err => (.error ("could not InspectPodRequest: " ++ err), [Call.InspectPod pod.Id])
    | .ok none =>
      ((getPodInfoLoop api subdomain rest).1,
        Call.InspectPod pod.Id :: (getPodInfoLoop api subdomain rest).2)
    | .ok (some inspectPod) =>
      match podToPodInfo api inspectPod with
      | none => (.panic, [Call.InspectPod pod.Id])
      | some info => (.ok info, [Call.InspectPod pod.Id])

/-- The filter of `GetPodInfo`: running instances annotated with the subdomain. -/
def subdomainFilter (api : Api) (subdomain : String) : v1alpha.PodFilter :=
  { States := [v1alpha.PodState.POD_STATE_RUNNING],
    Annotations := [{ Key := api.opts.Specific ++ "-subdomain", Value := subdomain }] }

def GetPodInfo (api : Api) (subdomain : String) : Outcome PodInfo × List Call :=
  match api.apiClient.ListPods (subdomainFilter api subdomain) with
  | .error err =>
    (.error ("could not ListPodsRequest: " ++ err), [Call.ListPods (subdomainFilter api subdomain)])
  | .ok pods =>
    ((getPodInfoLoop api subdomain pods).1,
      Call.ListPods (subdomainFilter api subdomain) :: (getPodInfoLoop api subdomain pods).2)

end apis

/-! ## What a handler writes to the client -/

namespace binding

/-- Library type `binding.Error` of `mholt/binding`. -/
structure Error where
  FieldNames : List String
  Classification : String
  Message : String
  deriving DecidableEq

abbrev Errors := List Error

end binding

namespace binding

/-- Library method `Errors.Add(fieldNames, classification, message)` of
`mholt/binding`: append one error. -/
def Errors.Add (errs : Errors) (fieldNames : List String) (classification message : String) :
    Errors :=
  errs ++ [{ FieldNames := fieldNames, Classification := classification, Message := message }]

end binding

namespace forms

/-- The method `(e *Envs) Bind`; `e` is the slice the receiver points to on
entry, and the result holds that slice and the returned errors on exit.
The result is `panic` when `kv[0]` or `kv[1]` is out of range. -/
def Envs.Bind (e : Envs) (fieldName : String) :
    List String → binding.Errors → Outcome (Envs × binding.Errors)
  | [], errs => .ok (e, errs)
  | v :: strVals, errs =>
    let kv := stringsSplit v '='
    let errs :=
      if kv.length ≠ 2 then
        binding.Errors.Add errs [fieldName] "EnvParseError" ("cannot parse Env for: " ++ v)
      else errs
    match kv[0]?, kv[1]? with
    | some key, some val => Envs.Bind (e ++ [{ Key := key, Val := val }]) fieldName strVals errs
    | _, _ => .panic

end forms

/-- Body passed to `render.JSON`: the map with the single key `result`. -/
inductive Rendered where
  | result (text : String)
  | resultErrors (errs : binding.Errors)
  | resultPods (pods : List apis.PodInfo)
  deriving DecidableEq

/-- What a handler does to its `http.ResponseWriter`. -/
inductive Response where
  /-- Call `http.NotFound(w, r)`: status 404. -/
  | NotFound
  /-- Call `http.Error(w, msg, code)`. -/
  | Error (msg : String) (code : Nat)
  /-- Call `ServeHTTP(w, r)` of the single-host reverse proxy for `dest`. -/
  | Proxied (dest : URL)
  /-- Call `render.JSON(w, status, body)`. -/
  | JSON (status : Nat) (body : Rendered)
  deriving DecidableEq

/-! ## Package `rproxy` -/

namespace rproxy

/-- Library type `httputil.ReverseProxy` as built by
`httputil.NewSingleHostReverseProxy(dest)`. -/
structure SingleHostReverseProxy where
  dest : URL
  deriving DecidableEq

/-- In `rpMap` a nil pointer is `none`. -/
structure ReverseProxy where
  api : apis.Api
  rpMap : GoMap (Option SingleHostReverseProxy)
  opts : options.Options

def New (api : apis.Api) (opts : options.Options) : Outcome ReverseProxy × List Call :=
  match apis.PodInfoMap api with
  | (.error err, calls) => (.error err, calls)
  | (.panic, calls) => (.panic, calls)
  | (.ok podInfoMap, calls) =>
    (.ok { api := api,
           rpMap := (api.ambient.rangeOrder podInfoMap.keys).foldl (fun rpMap k => rpMap.insert k none) ∅,
           opts := opts }, calls)

def newReverseProxy (rp : ReverseProxy) (subdomain : String) :
    Outcome SingleHostReverseProxy × List Call :=
  match apis.GetPodInfo rp.api subdomain with
  | (.error err, calls) => (.error err, calls)
  | (.panic, calls) => (.panic, calls)
  | (.ok podInfo, calls) =>
    if !podInfo.Running then
      (.error ("container not running: " ++ subdomain), calls)
    else
      match rp.api.ambient.urlParse ("http://" ++ podInfo.Host ++ ":" ++ sprintfD podInfo.Port) with
      | .error err => (.error err, calls)
      | .ok dest => (.ok { dest := dest }, calls)

/-- Outcome of serving one request: the response (`none` when the handler
panicked), the routing cache afterwards, and the calls made. -/
structure Served where
  response : Option Response
  rp : ReverseProxy
  calls : List Call

def ServeHTTPWithSubdomain (rp : ReverseProxy) (subdomain : String) : Served :=
  match rp.rpMap.lookup subdomain with
  | none => { response := some Response.NotFound, rp := rp, calls := [] }
  | some (some reverseProxy) =>
    { response := some (Response.Proxied reverseProxy.dest), rp := rp, calls := [] }
  | some none =>
    match newReverseProxy rp subdomain with
    | (.error err, calls) => { response := some (Response.Error err 500), rp := rp, calls := calls }
    | (.panic, calls) => { response := none, rp := rp, calls := calls }
    | (.ok new, calls) =>
      { response := some (Response.Proxied new.dest),
        rp := { rp with rpMap := rp.rpMap.insert subdomain (some new) },
        calls := calls }

def subdomainList (rp : ReverseProxy) : List String :=
  sortStrings (rp.api.ambient.rangeOrder rp.rpMap.keys)

/-- The placeholder `List` appends for a subdomain the runtime does not report. -/
def placeholder (subdomain : String) : apis.PodInfo :=
  { Uuid := "", Image := "", Subdomain := subdomain, Port := 0, Net := "", Host := "",
    Running := false, Env := [] }

def List (rp : ReverseProxy) : Outcome (List apis.PodInfo) × List Call :=
  match apis.PodInfoMap rp.api with
  | (.error err, calls) => (.error err, calls)
  | (.panic, calls) => (.panic, calls)
  | (.ok podInfoMap, calls) =>
    (.ok ((subdomainList rp).map (fun subdomain =>
      match podInfoMap.lookup subdomain with
      | some v => v
      | none => placeholder subdomain)), calls)

def Add (rp : ReverseProxy) (subdomain : String) : ReverseProxy :=
  { rp with rpMap := rp.rpMap.insert subdomain none }

def Del (rp : ReverseProxy) (subdomain : String) : ReverseProxy :=
  { rp with rpMap := rp.rpMap.erase subdomain }

end rproxy

/-! ## Package `apps` -/

namespace apps

structure Apps where
  api : apis.Api
  rp : rproxy.ReverseProxy
  opts : options.Options

/-- Outcome of one API handler: the response (`none` when the handler
panicked), the application state afterwards, and the calls made. -/
structure Handled where
  response : Option Response
  apps : Apps
  calls : List Call

def renderOK : Response := Response.JSON 200 (Rendered.result "ok")

def renderErr (err : String) : Response := Response.JSON 200 (Rendered.result err)

/-- Handler of `/api/launch`; `bind` is what `binding.Bind(r, launchForm)`
does with the request: the filled form and the errors it returns. -/
def launch (a : Apps) (bind : forms.LaunchForm → forms.LaunchForm × binding.Errors) : Handled :=
  let bound := bind { ImageId := "", ImageName := "", Subdomain := "",
                      Port := a.opts.DefaultPort, Net := a.opts.DefaultNet, Envs := [] }
  let launchForm := bound.1
  if 0 < bound.2.length then
    { response := some (Response.JSON 200 (Rendered.resultErrors bound.2)), apps := a, calls := [] }
  else
    let run :=
      if launchForm.ImageId ≠ "" then
        apis.RunByImageId a.api launchForm.ImageId launchForm.Subdomain
          (sprintfD launchForm.Port) launchForm.Net launchForm.Envs
      else
        apis.RunByImageName a.api launchForm.ImageName launchForm.Subdomain
          (sprintfD launchForm.Port) launchForm.Net launchForm.Envs
    match run with
    | (.error err, calls) => { response := some (renderErr err), apps := a, calls := calls }
    | (.panic, calls) => { response := none, apps := a, calls := calls }
    | (.ok _, calls) =>
      { response := some renderOK,
        apps := { a with rp := rproxy.Add a.rp launchForm.Subdomain },
        calls := calls }

/-- Handler of `/api/terminate`; `bound` is the form filled by
`binding.Bind(r, terminateForm)` with the errors it returns. -/
def terminate (a : Apps) (bound : forms.TerminateForm × binding.Errors) : Handled :=
  let terminateForm := bound.1
  if 0 < bound.2.length then
    { response := some (Response.JSON 200 (Rendered.resultErrors bound.2)), apps := a, calls := [] }
  else
    match apis.Stop a.api terminateForm.Subdomain with
    | (.error err, calls) => { response := some (renderErr err), apps := a, calls := calls }
    | (.panic, calls) => { response := none, apps := a, calls := calls }
    | (.ok _, calls) =>
      { response := some renderOK,
        apps := { a with rp := rproxy.Del a.rp terminateForm.Subdomain },
        calls := calls }

end apps

/-! ## Auxiliary definitions used in the statements -/

/-- The environment left by the loop of `overlayEnv` when the app is
present: the pairs of `env` set one after the other on `e`. -/
def overlaid (e : schema.Environment) (env : forms.Envs) : schema.Environment :=
  env.foldl (fun acc v => schema.Environment.Set acc v.Key v.Val) e

/-! ## A concrete runtime, used to evaluate the program -/

def demoOptions : options.Options :=
  { Host := "127.0.0.1", Port := 5000, ApiEndpoint := "localhost:15441", DefaultPort := 5000,
    DefaultNet := "default", Domain := "example.com", InsecureOptions := "image",
    TmpDir := "/tmp", Specific := "phantasma", ServiceDir := "/etc/systemd/system",
    Rkt := "/usr/local/bin/rkt", StaticDir := "." }

def demoImage : v1alpha.Image :=
  { Id := "sha512-abc", Name := "foo/bar", Version := "1.0", Manifest := "image-manifest" }

def demoImageManifest : schema.ImageManifest :=
  { Name := "foo/bar", Labels := [],
    App := some { Environment := [{ Name := "X", Value := "0" }, { Name := "Y", Value := "2" }],
                  Other := "exec" } }

/-- The manifest of the instance launched from `demoImage` as subdomain
`app1`, port 8080, net `default`, env `X=1`. -/
def demoPodManifest : schema.PodManifest :=
  { Apps := [{ Name := "bar",
               Image := { Name := "foo/bar", ID := { typ := "sha512", Val := "abc" }, Labels := [] },
               App := some { Environment := [{ Name := "X", Value := "1" }, { Name := "Y", Value := "2" }],
                             Other := "exec" } }],
    Annotations := [{ Name := "phantasma-is", Value := "1" },
                    { Name := "phantasma-subdomain", Value := "app1" },
                    { Name := "phantasma-port", Value := "8080" },
                    { Name := "phantasma-net", Value := "default" }] }

def demoPod : v1alpha.Pod :=
  { Id := "pod-1", Apps := [{ Name := "bar", Image := some demoImage }],
    Networks := [{ Name := "default", Ipv4 := "172.16.28.2" }], Manifest := "pod-manifest" }

def demoClient : v1alpha.PublicAPIClient :=
  { InspectImage := fun id => if id = demoImage.Id then .ok (some demoImage) else .ok none,
    ListImages := fun _ => .ok [demoImage],
    ListPods := fun _ => .ok [demoPod],
    InspectPod := fun id => if id = demoPod.Id then .ok (some demoPod) else .ok none }

def demoDbus : DbusConn :=
  { Reload := none, RestartUnit := fun _ _ => .ok "done", StopUnit := fun _ _ => .ok "done" }

def demoAmbient : Ambient :=
  { UnmarshalImageManifest := fun _ => .ok demoImageManifest,
    NewHash := fun _ => .ok { typ := "sha512", Val := "abc" },
    MarshalPodManifest := fun _ => .ok "pod-manifest",
    UnmarshalPodManifest := fun _ => .ok demoPodManifest,
    TempFile := fun dir pattern => .ok (dir ++ "/" ++ pattern ++ "123"),
    WriteFile := fun _ _ => none,
    Rename := fun _ _ => none,
    urlParse := fun raw => .ok { Scheme := "http", Host := raw.drop 7 },
    rangeOrder := fun keys => keys.reverse }

def demoApi : apis.Api :=
  { apiEndpoint := "localhost:15441", apiClient := demoClient, dbusConn := demoDbus,
    opts := demoOptions, ambient := demoAmbient }

/-- What `podToPodInfo` makes of `demoPod`. -/
def demoPodInfo : apis.PodInfo :=
  { Uuid := "pod-1", Image := "foo/bar:1.0", Subdomain := "app1", Port := 8080, Net := "default",
    Host := "172.16.28.2", Running := true,
    Env := [{ Key := "X", Val := "1" }, { Key := "Y", Val := "2" }] }

/-- A routing cache with `app1` Pending, `web` Bound and `gone` Pending. -/
def demoCache : rproxy.ReverseProxy :=
  { api := demoApi,
    rpMap := (((∅ : GoMap (Option rproxy.SingleHostReverseProxy)).insert "gone" none).insert
      "app1" none).insert "web" (some { dest := { Scheme := "http", Host := "172.16.28.3:80" } }),
    opts := demoOptions }

def demoApps : apps.Apps :=
  { api := demoApi, rp := demoCache, opts := demoOptions }

end Phantasma

/-! # Theorems -/

namespace Phantasma

/-! ## Splitting and searching strings -/

theorem splitChars_ne_nil (sep : Char) (l : List Char) : splitChars sep l ≠ [] := by
  cases l with
  | nil => simp [splitChars]
  | cons c cs =>
    unfold splitChars
    split
    · simp
    · split <;> simp

theorem splitChars_no_sep (sep : Char) (l : List Char) (h : sep ∉ l) :
    splitChars sep l = [l] := by
  induction l with
  | nil => rfl
  | cons c cs ih =>
    have hc : c ≠ sep := fun e => h (by simp [e])
    have hcs : sep ∉ cs := fun e => h (List.mem_cons_of_mem _ e)
    simp [splitChars, hc, ih hcs]

theorem splitChars_append_sep (sep : Char) (p r : List Char) (h : sep ∉ p) :
    splitChars sep (p ++ sep :: r) = p :: splitChars sep r := by
  induction p with
  | nil => simp [splitChars]
  | cons c cs ih =>
    have hc : c ≠ sep := fun e => h (by simp [e])
    have hcs : sep ∉ cs := fun e => h (List.mem_cons_of_mem _ e)
    simp [splitChars, hc, ih hcs]

theorem lastIndexFrom_no_sep (sep : Char) (l : List Char) (i : Nat) (found : Int)
    (h : sep ∉ l) : lastIndexFrom sep l i found = found := by
  induction l generalizing i found with
  | nil => rfl
  | cons c cs ih =>
    have hc : c ≠ sep := fun e => h (by simp [e])
    have hcs : sep ∉ cs := fun e => h (List.mem_cons_of_mem _ e)
    simp [lastIndexFrom, hc, ih _ _ hcs]

theorem lastIndexFrom_append_sep (sep : Char) (p b : List Char) (i : Nat) (found : Int)
    (h : sep ∉ b) : lastIndexFrom sep (p ++ sep :: b) i found = ((i + p.length : Nat) : Int) := by
  induction p generalizing i found with
  | nil => simp [lastIndexFrom, lastIndexFrom_no_sep sep b _ _ h]
  | cons c cs ih =>
    show lastIndexFrom sep (cs ++ sep :: b) (i + 1) _ = _
    rw [ih, List.length_cons]
    congr 1
    omega

/-! ## splitImageName -/

theorem splitImageName_name (ref : String) :
    (stringsSplit ref ':').getD 0 "" = String.mk ((splitChars ':' ref.data).headD []) := by
  unfold stringsSplit
  cases h : splitChars ':' ref.data with
  | nil => exact absurd h (splitChars_ne_nil _ _)
  | cons p ps => simp

theorem splitImageName_version_eq (ref : String) :
    (apis.splitImageName ref).2.2.1 =
      if 1 < (stringsSplit ref ':').length then (stringsSplit ref ':').getD 1 "" else "" := by
  unfold apis.splitImageName
  simp only
  split <;> rfl

theorem splitImageName_err (ref : String) : (apis.splitImageName ref).2.2.2 = none := by
  unfold apis.splitImageName
  simp only
  split <;> rfl

/-- C1, as stated, fails: on `a:b:c` the version returned is `b`, the text
between the first and the second colon, not the text `c` after the last
colon. -/
theorem splitImageName_version_not_after_last_colon :
    ¬ ∀ (ref : String) (pre v : List Char), ref.data = pre ++ ':' :: v → ':' ∉ v →
        (apis.splitImageName ref).2.2.1 = String.mk v := by
  intro h
  have h1 := h "a:b:c" ['a', ':', 'b'] ['c'] (by decide) (by decide)
  revert h1
  decide

/-- C1, amended: the version returned by `splitImageName` is empty when the
reference has no colon, and otherwise is the text between the first colon
and the next colon or the end of the reference; for a reference with
exactly one colon this is the text after its last colon. -/
theorem splitImageName_version (ref : String) :
    (':' ∉ ref.data → (apis.splitImageName ref).2.2.1 = "") ∧
    (∀ pre v rest : List Char, ref.data = pre ++ ':' :: (v ++ rest) → ':' ∉ pre → ':' ∉ v →
      (rest = [] ∨ rest.head? = some ':') → (apis.splitImageName ref).2.2.1 = String.mk v) ∧
    (∀ pre v : List Char, ref.data = pre ++ ':' :: v → ':' ∉ pre → ':' ∉ v →
      (apis.splitImageName ref).2.2.1 = String.mk v) := by
  have key : ∀ pre v rest : List Char, ref.data = pre ++ ':' :: (v ++ rest) → ':' ∉ pre →
      ':' ∉ v → (rest = [] ∨ rest.head? = some ':') →
      (apis.splitImageName ref).2.2.1 = String.mk v := by
    intro pre v rest href hpre hv hrest
    rw [splitImageName_version_eq]
    unfold stringsSplit
    rw [href, splitChars_append_sep _ _ _ hpre]
    rcases hrest with rfl | hhead
    · rw [List.append_nil, splitChars_no_sep _ _ hv]
      simp
    · cases rest with
      | nil => simp at hhead
      | cons c r =>
        simp only [List.head?_cons, Option.some.injEq] at hhead
        subst hhead
        rw [splitChars_append_sep _ _ _ hv]
        simp
  refine ⟨?_, key, ?_⟩
  · intro hno
    rw [splitImageName_version_eq]
    unfold stringsSplit
    rw [splitChars_no_sep _ _ hno]
    simp
  · intro pre v href hpre hv
    exact key pre v [] (by simpa using href) hpre hv (Or.inl rfl)

theorem splitImageName_version_witness :
    ("foo/bar:1.0".data = "foo/bar".data ++ ':' :: ("1.0".data ++ []) ∧ ':' ∉ "foo/bar".data ∧
      ':' ∉ "1.0".data) ∧ (apis.splitImageName "foo/bar:1.0").2.2.1 = String.mk "1.0".data :=
  ⟨by decide,
   (splitImageName_version "foo/bar:1.0").2.1 "foo/bar".data "1.0".data [] (by decide)
     (by decide) (by decide) (Or.inl rfl)⟩

/-- C2, at the failing input: the name `/foo` has its last slash at
position 0, the text after it is `foo`, and `splitImageName` returns the
whole name `/foo` as basename. -/
theorem splitImageName_leading_slash :
    stringsLastIndex "/foo" '/' = 0 ∧ sliceFrom "/foo" (0 + 1) = "foo" ∧
    apis.splitImageName "/foo" = ("", "/foo", "", none) := by
  decide

/-- Whenever the last slash of the name is not its first character,
`splitImageName` returns the text before that slash as prefix and the text
after it as basename; without a slash the prefix is empty and the basename
is the name. -/
theorem splitImageName_basename (ref : String) :
    (∀ pre base : List Char, (splitChars ':' ref.data).headD [] = pre ++ '/' :: base →
      '/' ∉ base → pre ≠ [] →
      (apis.splitImageName ref).1 = String.mk pre ∧
      (apis.splitImageName ref).2.1 = String.mk base) ∧
    ('/' ∉ (splitChars ':' ref.data).headD [] →
      (apis.splitImageName ref).1 = "" ∧
      (apis.splitImageName ref).2.1 = String.mk ((splitChars ':' ref.data).headD [])) := by
  constructor
  · intro pre base hname hbase hpre
    have hidx : stringsLastIndex ((stringsSplit ref ':').getD 0 "") '/' = (pre.length : Int) := by
      rw [splitImageName_name]
      unfold stringsLastIndex
      simp only [hname, lastIndexFrom_append_sep _ _ _ _ _ hbase]
      simp
    have hpos : 0 < pre.length := List.length_pos.mpr hpre
    unfold apis.splitImageName
    simp only [hidx]
    rw [if_pos (by exact_mod_cast hpos)]
    simp only [splitImageName_name, sliceTo, sliceFrom, hname]
    constructor
    · simp
    · have : ((pre.length : Int) + 1).toNat = pre.length + 1 := by omega
      rw [this]
      simp
  · intro hno
    have hidx : stringsLastIndex ((stringsSplit ref ':').getD 0 "") '/' = -1 := by
      rw [splitImageName_name]
      unfold stringsLastIndex
      exact lastIndexFrom_no_sep _ _ _ _ hno
    unfold apis.splitImageName
    simp only [hidx]
    rw [if_neg (by decide)]
    exact ⟨rfl, splitImageName_name ref⟩

/-! ## getImageByName -/

theorem getImageByName_unfold (api : apis.Api) (ref : String) :
    apis.getImageByName api ref =
      let filter := apis.imageFilter (apis.splitImageName ref).1 (apis.splitImageName ref).2.1
        (apis.splitImageName ref).2.2.1
      match api.apiClient.ListImages filter with
      | .error err => (.error ("could not ListImagesRequest: " ++ err), [Call.ListImages filter])
      | .ok images =>
        if images.length = 0 then
          (.error ("image not found: name " ++ (apis.splitImageName ref).2.1),
            [Call.ListImages filter])
        else if 1 < images.length then
          (.error ("image found, but duplicated: name " ++ (apis.splitImageName ref).2.1),
            [Call.ListImages filter])
        else
          match images.head? with
          | none => (.panic, [Call.ListImages filter])
          | some image =>
            ((apis.getImageById api image.Id).1,
              Call.ListImages filter :: (apis.getImageById api image.Id).2) := by
  have herr := splitImageName_err ref
  unfold apis.getImageByName
  rcases hs : apis.splitImageName ref with ⟨pfx, name, version, err⟩
  rw [hs] at herr
  simp only at herr
  subst herr
  rfl

/-- C3: when the runtime answers the listing for the filter built from the
reference with `images`, `getImageByName` returns the not-found error if
there is no image, returns the duplicate error if there are two or more,
in both cases after the listing call alone (no image is fetched), and for
exactly one image returns the result of `getImageById` on its id, made
after the listing call. -/
theorem getImageByName_by_count (api : apis.Api) (ref : String) (images : List v1alpha.Image)
    (hlist : api.apiClient.ListImages
      (apis.imageFilter (apis.splitImageName ref).1 (apis.splitImageName ref).2.1
        (apis.splitImageName ref).2.2.1) = .ok images) :
    (images.length = 0 →
      apis.getImageByName api ref =
        (.error ("image not found: name " ++ (apis.splitImageName ref).2.1),
          [Call.ListImages (apis.imageFilter (apis.splitImageName ref).1
            (apis.splitImageName ref).2.1 (apis.splitImageName ref).2.2.1)])) ∧
    (2 ≤ images.length →
      apis.getImageByName api ref =
        (.error ("image found, but duplicated: name " ++ (apis.splitImageName ref).2.1),
          [Call.ListImages (apis.imageFilter (apis.splitImageName ref).1
            (apis.splitImageName ref).2.1 (apis.splitImageName ref).2.2.1)])) ∧
    (∀ image, images = [image] →
      apis.getImageByName api ref =
        ((apis.getImageById api image.Id).1,
          Call.ListImages (apis.imageFilter (apis.splitImageName ref).1
            (apis.splitImageName ref).2.1 (apis.splitImageName ref).2.2.1) ::
            (apis.getImageById api image.Id).2)) := by
  rw [getImageByName_unfold]
  simp only [hlist]
  refine ⟨?_, ?_, ?_⟩
  · intro h0
    rw [if_pos h0]
  · intro h2
    rw [if_neg (by omega), if_pos (by omega)]
  · rintro image rfl
    simp

/-! ## The environment overlay of generatePodManifest -/

/-- The names of the variables of an environment, in order. -/
theorem Environment_Set_names (e : schema.Environment) (k v : String) :
    (schema.Environment.Set e k v).map (·.Name) =
      if k ∈ e.map (·.Name) then e.map (·.Name) else e.map (·.Name) ++ [k] := by
  induction e with
  | nil => simp [schema.Environment.Set]
  | cons x rest ih =>
    unfold schema.Environment.Set
    by_cases hx : x.Name = k
    · simp [hx]
    · have hx' : ¬ k = x.Name := fun h => hx h.symm
      simp only [hx, if_false, List.map_cons, ih, List.mem_cons, hx', false_or]
      split <;> simp

theorem Environment_Set_nodup (e : schema.Environment) (k v : String)
    (h : (e.map (·.Name)).Nodup) : ((schema.Environment.Set e k v).map (·.Name)).Nodup := by
  rw [Environment_Set_names]
  split
  · exact h
  · rename_i hk
    exact List.Nodup.append h (List.nodup_singleton k) (by simpa using hk)

theorem Environment_Get_Set (e : schema.Environment) (k v k' : String) :
    schema.Environment.Get (schema.Environment.Set e k v) k' =
      if k' = k then some v else schema.Environment.Get e k' := by
  induction e with
  | nil =>
    simp only [schema.Environment.Set, schema.Environment.Get]
    by_cases h : k = k'
    · simp [h]
    · have h' : ¬ k' = k := fun e => h e.symm
      simp [h, h']
  | cons x rest ih =>
    unfold schema.Environment.Set
    by_cases hx : x.Name = k
    · simp only [hx, if_true, schema.Environment.Get]
      by_cases h : k = k'
      · simp [h]
      · have h' : ¬ k' = k := fun e => h e.symm
        simp [h, h']
    · simp only [hx, if_false, schema.Environment.Get, ih]
      by_cases h : x.Name = k'
      · have h' : ¬ k' = k := fun e => hx (h.trans e)
        simp [h, h']
      · simp [h]

theorem overlayEnv_some (app : schema.App) (env : forms.Envs) :
    apis.overlayEnv (some app) env =
      some (some { app with Environment := overlaid app.Environment env }) := by
  induction env generalizing app with
  | nil => rfl
  | cons v rest ih =>
    unfold apis.overlayEnv
    rw [ih]
    rfl

theorem overlaid_nodup (e : schema.Environment) (env : forms.Envs)
    (h : (e.map (·.Name)).Nodup) : ((overlaid e env).map (·.Name)).Nodup := by
  induction env generalizing e with
  | nil => exact h
  | cons v rest ih => exact ih _ (Environment_Set_nodup e v.Key v.Val h)

theorem overlaid_Get_of_not_mem (e : schema.Environment) (env : forms.Envs) (k : String)
    (h : k ∉ env.map (·.Key)) :
    schema.Environment.Get (overlaid e env) k = schema.Environment.Get e k := by
  induction env generalizing e with
  | nil => rfl
  | cons v rest ih =>
    have hv : ¬ k = v.Key := fun e => h (by simp [e])
    have hrest : k ∉ rest.map (·.Key) := fun e => h (List.mem_cons_of_mem _ e)
    show schema.Environment.Get (overlaid (schema.Environment.Set e v.Key v.Val) rest) k = _
    rw [ih _ hrest, Environment_Get_Set, if_neg hv]

theorem overlaid_Get_last (e : schema.Environment) (pre post : forms.Envs) (k v : String)
    (h : k ∉ post.map (·.Key)) :
    schema.Environment.Get (overlaid e (pre ++ { Key := k, Val := v } :: post)) k = some v := by
  unfold overlaid
  rw [List.foldl_append, List.foldl_cons]
  have := overlaid_Get_of_not_mem
    (schema.Environment.Set (List.foldl (fun acc v => schema.Environment.Set acc v.Key v.Val) e pre) k v)
    post k h
  unfold overlaid at this
  rw [this, Environment_Get_Set, if_pos rfl]

theorem Environment_Get_of_mem (e : schema.Environment) (x : schema.EnvironmentVariable)
    (hx : x ∈ e) (h : (e.map (·.Name)).Nodup) : schema.Environment.Get e x.Name = some x.Value := by
  induction e with
  | nil => simp at hx
  | cons y rest ih =>
    rw [List.map_cons, List.nodup_cons] at h
    unfold schema.Environment.Get
    rcases List.mem_cons.mp hx with rfl | hmem
    · simp
    · have hne : ¬ y.Name = x.Name := fun e => h.1 (e ▸ List.mem_map_of_mem _ hmem)
      rw [if_neg hne]
      exact ih hmem h.2

/-- C4: when the image manifest decodes, declares an app whose environment
has unique names, and the image id is a well-formed hash,
`generatePodManifest` returns a manifest with one app whose environment has
unique names, gives every key of the env list the value of the last pair
with that key, and gives every declared name that is not a key of the env
list its declared value. -/
theorem generatePodManifest_environment (api : apis.Api) (image : v1alpha.Image)
    (annotationMap : GoMap String) (env : forms.Envs) (imageManifest : schema.ImageManifest)
    (app : schema.App) (id : schema.Hash)
    (hdecode : api.ambient.UnmarshalImageManifest image.Manifest = .ok imageManifest)
    (happ : imageManifest.App = some app)
    (hid : api.ambient.NewHash image.Id = .ok id)
    (hunique : (app.Environment.map (·.Name)).Nodup) :
    ∃ (podManifest : schema.PodManifest) (runtimeApp : schema.RuntimeApp) (merged : schema.App),
      apis.generatePodManifest api image annotationMap env = .ok podManifest ∧
      podManifest.Apps = [runtimeApp] ∧ runtimeApp.App = some merged ∧
      (merged.Environment.map (·.Name)).Nodup ∧
      (∀ (pre post : forms.Envs) (k v : String),
        env = pre ++ { Key := k, Val := v } :: post → k ∉ post.map (·.Key) →
        schema.Environment.Get merged.Environment k = some v) ∧
      (∀ declared ∈ app.Environment, declared.Name ∉ env.map (·.Key) →
        schema.Environment.Get merged.Environment declared.Name = some declared.Value) := by
  refine ⟨{ Apps := [{ Name := (stringsSplit imageManifest.Name '/').getLastD "",
                        Image := { Name := imageManifest.Name, ID := id,
                                   Labels := imageManifest.Labels },
                        App := some { app with Environment := overlaid app.Environment env } }],
             Annotations := apis.annotationsOf api annotationMap },
    _, { app with Environment := overlaid app.Environment env }, ?_, rfl, rfl, ?_, ?_, ?_⟩
  · unfold apis.generatePodManifest
    simp only [hdecode, happ, overlayEnv_some, hid]
    rfl
  · exact overlaid_nodup _ _ hunique
  · rintro pre post k v rfl hk
    exact overlaid_Get_last _ _ _ _ _ hk
  · intro declared hmem hk
    show schema.Environment.Get (overlaid app.Environment env) declared.Name = _
    rw [overlaid_Get_of_not_mem _ _ _ hk]
    exact Environment_Get_of_mem _ _ hmem hunique

/-! ## Decimal formatting and parsing -/

/-- One step of the loop of `ParseUint` on a digit that does not overflow. -/
theorem parseUintLoop_digit (m k : Nat) (cs : List Char) (hk : k < 10)
    (hm : m * 10 + k < 2 ^ 64) :
    parseUintLoop (Nat.digitChar k :: cs) m = parseUintLoop cs (m * 10 + k) := by
  have hd : '0' ≤ Nat.digitChar k ∧ Nat.digitChar k ≤ '9' := by
    interval_cases k <;> simp [Nat.digitChar]
  have hv : (Nat.digitChar k).toNat - '0'.toNat = k := by
    interval_cases k <;> simp [Nat.digitChar]
  have h1 : ¬ ((2 ^ 64 - 1) / 10 + 1 ≤ m) := by
    norm_num
    omega
  have h2 : m * 10 % 2 ^ 64 = m * 10 := Nat.mod_eq_of_lt (by omega)
  have h3 : (m * 10 + k) % 2 ^ 64 = m * 10 + k := Nat.mod_eq_of_lt hm
  conv_lhs => unfold parseUintLoop
  rw [if_pos hd, if_neg h1, hv, h2, h3, if_neg (by omega)]

theorem parseUintLoop_toDigitsCore (fuel n : Nat) (ds : List Char) (h : n < fuel)
    (hn : n < 2 ^ 64) :
    parseUintLoop (Nat.toDigitsCore 10 fuel n ds) 0 = parseUintLoop ds n := by
  induction fuel generalizing n ds with
  | zero => omega
  | succ fuel ih =>
    unfold Nat.toDigitsCore
    simp only
    have hmod : n % 10 < 10 := Nat.mod_lt _ (by decide)
    split
    · rename_i h0
      have hn' : n % 10 = n := by omega
      rw [parseUintLoop_digit 0 (n % 10) ds hmod (by omega)]
      simp [hn']
    · rename_i h0
      have hlt : n / 10 < fuel := by omega
      rw [ih _ _ hlt (by omega), parseUintLoop_digit (n / 10) (n % 10) ds hmod (by omega)]
      have : n / 10 * 10 + n % 10 = n := by omega
      rw [this]

theorem toDigitsCore_head (fuel n : Nat) (ds : List Char) :
    ∃ k rest, k < 10 ∧ Nat.toDigitsCore 10 (fuel + 1) n ds = Nat.digitChar k :: rest := by
  induction fuel generalizing n ds with
  | zero =>
    unfold Nat.toDigitsCore
    simp only
    split
    · exact ⟨n % 10, ds, Nat.mod_lt _ (by decide), rfl⟩
    · exact ⟨n % 10, ds, Nat.mod_lt _ (by decide), by simp [Nat.toDigitsCore]⟩
  | succ fuel ih =>
    unfold Nat.toDigitsCore
    simp only
    split
    · exact ⟨n % 10, ds, Nat.mod_lt _ (by decide), rfl⟩
    · exact ih _ _

theorem digitChar_not_sign (k : Nat) (hk : k < 10) :
    Nat.digitChar k ≠ '-' ∧ Nat.digitChar k ≠ '+' := by
  interval_cases k <;> simp [Nat.digitChar]

theorem toDigits_head (n : Nat) :
    ∃ c rest, Nat.toDigits 10 n = c :: rest ∧ c ≠ '-' ∧ c ≠ '+' := by
  obtain ⟨k, rest, hk, hrest⟩ := toDigitsCore_head n n []
  exact ⟨_, rest, hrest, digitChar_not_sign k hk⟩

theorem ParseUint_toDigits (n : Nat) (hn : n < 2 ^ 64) :
    ParseUint (Nat.toDigits 10 n) = (n, none) := by
  obtain ⟨c, rest, hdata, _, _⟩ := toDigits_head n
  unfold ParseUint
  rw [if_neg (by rw [hdata]; simp)]
  unfold Nat.toDigits
  rw [parseUintLoop_toDigitsCore (n + 1) n [] (Nat.lt_succ_self n) hn]
  rfl

/-- Parsing what `%d` printed gives the number back, for every 64-bit `int`. -/
theorem Atoi_sprintfD (n : Int) (hlo : -(2 ^ 63 : Int) ≤ n) (hhi : n < 2 ^ 63) :
    Atoi (sprintfD n) = (n, false) := by
  obtain ⟨c, rest, hdata, hc1, hc2⟩ := toDigits_head n.natAbs
  have hparse := ParseUint_toDigits n.natAbs (by omega)
  have hint : ParseInt (sprintfD n) = (n, none) := by
    unfold ParseInt sprintfD
    by_cases hneg : n < 0
    · simp only [hneg, if_true, List.head?_cons, or_true, List.tail_cons, hparse]
      have h1 : ¬ (2 ^ 63 < n.natAbs) := by omega
      simp only [h1, and_false, and_true, not_true_eq_false, if_false, if_true, false_and,
        true_and, not_false_eq_true]
      rw [if_neg (List.cons_ne_nil _ _)]
      congr 1
      omega
    · simp only [hneg, if_false, hdata, List.head?_cons, Option.some.injEq, hc1, hc2, or_self]
      rw [← hdata, hparse]
      have h1 : ¬ (2 ^ 63 ≤ n.natAbs) := by omega
      simp only [h1, and_false, and_true, not_true_eq_false, if_false, if_true, false_and,
        true_and, not_false_eq_true]
      rw [if_neg (by rw [hdata]; exact List.cons_ne_nil _ _)]
      congr 1
      omega
  unfold Atoi
  rw [hint]
  rfl

theorem demo_Atoi :
    Atoi "8080" = (8080, false) ∧ Atoi "-12" = (-12, false) ∧ Atoi "+12" = (12, false) ∧
    Atoi "" = (0, true) ∧ Atoi "-" = (0, true) ∧ Atoi "12x" = (0, true) ∧
    Atoi "9223372036854775808" = (9223372036854775807, true) ∧
    Atoi "-9223372036854775808" = (-9223372036854775808, false) ∧
    Atoi "-9223372036854775809" = (-9223372036854775808, true) ∧
    Atoi "99999999999999999999x" = (9223372036854775807, true) ∧
    Atoi "x99999999999999999999" = (0, true) := by
  decide

/-! ## Orchestration annotations -/

theorem append_ne_append (p a b : String) (h : a ≠ b) : p ++ a ≠ p ++ b := by
  intro e
  apply h
  have hd := congrArg String.data e
  simp only [String.data_append] at hd
  exact String.ext (List.append_cancel_left hd)

theorem mem_annotationsOf (api : apis.Api) (m : GoMap String)
    (horder : ∀ keys, (api.ambient.rangeOrder keys).Perm keys) (a : schema.Annotation) :
    a ∈ apis.annotationsOf api m ↔ m.lookup a.Name = some a.Value := by
  unfold apis.annotationsOf
  rw [List.mem_filterMap]
  constructor
  · rintro ⟨k, _, hk⟩
    cases hl : AList.lookup k m with
    | none => simp [hl] at hk
    | some v =>
      simp only [hl, Option.map_some', Option.some.injEq] at hk
      subst hk
      exact hl
  · intro hl
    refine ⟨a.Name, ?_, by simp [hl]⟩
    rw [(horder m.keys).mem_iff, ← AList.mem_keys, ← AList.lookup_isSome, hl]
    rfl

theorem annotationsOf_names (api : apis.Api) (m : GoMap String) :
    (apis.annotationsOf api m).map (·.Name) =
      (api.ambient.rangeOrder m.keys).filter (fun k => (m.lookup k).isSome) := by
  unfold apis.annotationsOf
  induction api.ambient.rangeOrder m.keys with
  | nil => rfl
  | cons k rest ih =>
    cases hl : AList.lookup k m with
    | none => simp [List.filterMap_cons, List.filter_cons, hl, ih]
    | some v => simp [List.filterMap_cons, List.filter_cons, hl, ih]

theorem annotationsOf_nodup (api : apis.Api) (m : GoMap String)
    (horder : ∀ keys, (api.ambient.rangeOrder keys).Perm keys) :
    ((apis.annotationsOf api m).map (·.Name)).Nodup := by
  rw [annotationsOf_names]
  exact List.Nodup.filter _ ((horder m.keys).nodup_iff.mpr m.keys_nodup)

theorem annotationsOf_length (api : apis.Api) (m : GoMap String)
    (horder : ∀ keys, (api.ambient.rangeOrder keys).Perm keys) :
    (apis.annotationsOf api m).length = m.keys.length := by
  have h := congrArg List.length (annotationsOf_names api m)
  rw [List.length_map] at h
  rw [h, ← (horder m.keys).length_eq]
  congr 1
  rw [List.filter_eq_self]
  intro k hk
  rw [(horder m.keys).mem_iff, ← AList.mem_keys, ← AList.lookup_isSome] at hk
  exact hk

theorem launchAnnotations_lookup (api : apis.Api) (subdomain port net k : String) :
    (apis.launchAnnotations api subdomain port net).lookup k =
      if k = api.opts.Specific ++ "-net" then some net
      else if k = api.opts.Specific ++ "-port" then some port
      else if k = api.opts.Specific ++ "-subdomain" then some subdomain
      else if k = api.opts.Specific ++ "-is" then some "1"
      else none := by
  unfold apis.launchAnnotations
  by_cases h1 : k = api.opts.Specific ++ "-net"
  · rw [if_pos h1, h1]
    exact AList.lookup_insert _
  · rw [if_neg h1, AList.lookup_insert_ne h1]
    by_cases h2 : k = api.opts.Specific ++ "-port"
    · rw [if_pos h2, h2]
      exact AList.lookup_insert _
    · rw [if_neg h2, AList.lookup_insert_ne h2]
      by_cases h3 : k = api.opts.Specific ++ "-subdomain"
      · rw [if_pos h3, h3]
        exact AList.lookup_insert _
      · rw [if_neg h3, AList.lookup_insert_ne h3]
        by_cases h4 : k = api.opts.Specific ++ "-is"
        · rw [if_pos h4, h4]
          exact AList.lookup_insert _
        · rw [if_neg h4, AList.lookup_insert_ne h4]
          rfl

theorem launchAnnotations_keys_length (api : apis.Api) (subdomain port net : String) :
    (apis.launchAnnotations api subdomain port net).keys.length = 4 := by
  have h1 : api.opts.Specific ++ "-net" ≠ api.opts.Specific ++ "-port" :=
    append_ne_append _ _ _ (by decide)
  have h2 : api.opts.Specific ++ "-net" ≠ api.opts.Specific ++ "-subdomain" :=
    append_ne_append _ _ _ (by decide)
  have h3 : api.opts.Specific ++ "-net" ≠ api.opts.Specific ++ "-is" :=
    append_ne_append _ _ _ (by decide)
  have h4 : api.opts.Specific ++ "-port" ≠ api.opts.Specific ++ "-subdomain" :=
    append_ne_append _ _ _ (by decide)
  have h5 : api.opts.Specific ++ "-port" ≠ api.opts.Specific ++ "-is" :=
    append_ne_append _ _ _ (by decide)
  have h6 : api.opts.Specific ++ "-subdomain" ≠ api.opts.Specific ++ "-is" :=
    append_ne_append _ _ _ (by decide)
  unfold apis.launchAnnotations
  simp [AList.keys_insert, List.erase_cons, h1, h2, h3, h4, h5, h6, h1.symm, h2.symm, h3.symm,
    h4.symm, h5.symm, h6.symm]

/-! ## Reading the annotations back -/

theorem foldl_no_write {σ α β : Type} (step : σ → α → σ) (proj : σ → β) (hit : α → Prop)
    [DecidablePred hit] (val : α → β)
    (hstep : ∀ s a, proj (step s a) = if hit a then val a else proj s)
    (l : List α) (s : σ) (hno : ∀ b ∈ l, ¬ hit b) : proj (l.foldl step s) = proj s := by
  induction l generalizing s with
  | nil => rfl
  | cons x rest ih =>
    rw [List.foldl_cons, ih _ (fun b hb => hno b (List.mem_cons_of_mem _ hb)), hstep,
      if_neg (hno x (List.mem_cons_self _ _))]

theorem foldl_last_write {σ α β : Type} (step : σ → α → σ) (proj : σ → β) (hit : α → Prop)
    [DecidablePred hit] (val : α → β)
    (hstep : ∀ s a, proj (step s a) = if hit a then val a else proj s)
    (l : List α) (s : σ) (a : α) (ha : a ∈ l) (hhit : hit a)
    (huniq : ∀ b ∈ l, hit b → b = a) : proj (l.foldl step s) = val a := by
  induction l generalizing s with
  | nil => simp at ha
  | cons x rest ih =>
    rw [List.foldl_cons]
    by_cases hrest : a ∈ rest
    · exact ih _ hrest (fun b hb => huniq b (List.mem_cons_of_mem _ hb))
    · have hx : x = a := by
        rcases List.mem_cons.mp ha with h | h
        · exact h.symm
        · exact absurd h hrest
      subst hx
      rw [foldl_no_write step proj hit val hstep rest _
        (fun b hb hbhit => hrest (huniq b (List.mem_cons_of_mem _ hb) hbhit ▸ hb)),
        hstep, if_pos hhit]

theorem annotationStep_Subdomain (api : apis.Api) (info : apis.PodInfo) (v : schema.Annotation) :
    (apis.annotationStep api info v).Subdomain =
      if v.Name = api.opts.Specific ++ "-subdomain" then v.Value else info.Subdomain := by
  unfold apis.annotationStep
  simp only
  split_ifs <;> rfl

theorem annotationStep_Port (api : apis.Api) (info : apis.PodInfo) (v : schema.Annotation) :
    (apis.annotationStep api info v).Port =
      if v.Name = api.opts.Specific ++ "-port" then (Atoi v.Value).1 else info.Port := by
  unfold apis.annotationStep
  simp only
  split_ifs <;> rfl

theorem annotationStep_Net (api : apis.Api) (info : apis.PodInfo) (v : schema.Annotation) :
    (apis.annotationStep api info v).Net =
      if v.Name = api.opts.Specific ++ "-net" then v.Value else info.Net := by
  unfold apis.annotationStep
  simp only
  split_ifs <;> rfl

theorem networkStep_keeps (info : apis.PodInfo) (v : v1alpha.Network) :
    (apis.networkStep info v).Subdomain = info.Subdomain ∧
    (apis.networkStep info v).Port = info.Port ∧
    (apis.networkStep info v).Net = info.Net ∧
    (apis.networkStep info v).Running = info.Running := by
  unfold apis.networkStep
  split <;> exact ⟨rfl, rfl, rfl, rfl⟩

theorem foldl_networkStep_keeps (l : List v1alpha.Network) (info : apis.PodInfo) :
    (l.foldl apis.networkStep info).Subdomain = info.Subdomain ∧
    (l.foldl apis.networkStep info).Port = info.Port ∧
    (l.foldl apis.networkStep info).Net = info.Net ∧
    (l.foldl apis.networkStep info).Running = info.Running := by
  induction l generalizing info with
  | nil => exact ⟨rfl, rfl, rfl, rfl⟩
  | cons v rest ih =>
    obtain ⟨h1, h2, h3, h4⟩ := networkStep_keeps info v
    obtain ⟨i1, i2, i3, i4⟩ := ih (apis.networkStep info v)
    exact ⟨i1.trans h1, i2.trans h2, i3.trans h3, i4.trans h4⟩

theorem foldl_envStep_keeps (l : schema.Environment) (info : apis.PodInfo) :
    (l.foldl apis.envStep info).Subdomain = info.Subdomain ∧
    (l.foldl apis.envStep info).Port = info.Port ∧
    (l.foldl apis.envStep info).Net = info.Net ∧
    (l.foldl apis.envStep info).Running = info.Running := by
  induction l generalizing info with
  | nil => exact ⟨rfl, rfl, rfl, rfl⟩
  | cons v rest ih =>
    obtain ⟨i1, i2, i3, i4⟩ := ih (apis.envStep info v)
    exact ⟨i1, i2, i3, i4⟩

/-- What `podToPodInfo` reads from a list of annotations with distinct
names: the values of the subdomain, port and net annotations it contains. -/
theorem foldl_annotationStep (api : apis.Api) (l : List schema.Annotation) (info : apis.PodInfo)
    (hnodup : (l.map (·.Name)).Nodup) (subdomain port net : String)
    (hs : ({ Name := api.opts.Specific ++ "-subdomain", Value := subdomain } : schema.Annotation) ∈ l)
    (hp : ({ Name := api.opts.Specific ++ "-port", Value := port } : schema.Annotation) ∈ l)
    (hn : ({ Name := api.opts.Specific ++ "-net", Value := net } : schema.Annotation) ∈ l) :
    (l.foldl (apis.annotationStep api) info).Subdomain = subdomain ∧
    (l.foldl (apis.annotationStep api) info).Port = (Atoi port).1 ∧
    (l.foldl (apis.annotationStep api) info).Net = net := by
  have huniq : ∀ a ∈ l, ∀ b ∈ l, b.Name = a.Name → b = a := fun a ha b hb hab =>
    List.inj_on_of_nodup_map hnodup hb ha hab
  refine ⟨?_, ?_, ?_⟩
  · exact foldl_last_write (apis.annotationStep api) (·.Subdomain)
      (fun v => v.Name = api.opts.Specific ++ "-subdomain") (·.Value)
      (annotationStep_Subdomain api) l info _ hs rfl (fun b hb hhit => huniq _ hs b hb hhit)
  · exact foldl_last_write (apis.annotationStep api) (·.Port)
      (fun v => v.Name = api.opts.Specific ++ "-port") (fun v => (Atoi v.Value).1)
      (annotationStep_Port api) l info _ hp rfl (fun b hb hhit => huniq _ hp b hb hhit)
  · exact foldl_last_write (apis.annotationStep api) (·.Net)
      (fun v => v.Name = api.opts.Specific ++ "-net") (·.Value)
      (annotationStep_Net api) l info _ hn rfl (fun b hb hhit => huniq _ hn b hb hhit)

/-- C5: a launch with subdomain, 64-bit integer port and net builds a
manifest whose annotations are exactly the four orchestration annotations
(marker `-is` = 1, `-subdomain`, `-port`, `-net`, all under the configured
prefix), in whatever order the run time ranges over the annotation map; and
`podToPodInfo`, applied to an instance whose embedded manifest decodes to
that manifest and whose first app has an image, returns an info with exactly
the launched subdomain, port and net. -/
theorem launch_annotations_recovered (api : apis.Api) (image : v1alpha.Image)
    (subdomain net : String) (port : Int) (env : forms.Envs)
    (imageManifest : schema.ImageManifest) (app : schema.App) (id : schema.Hash)
    (pod : v1alpha.Pod) (app0 : v1alpha.App) (image0 : v1alpha.Image)
    (hlo : -(2 ^ 63 : Int) ≤ port) (hhi : port < 2 ^ 63)
    (horder : ∀ keys, (api.ambient.rangeOrder keys).Perm keys)
    (hdecode : api.ambient.UnmarshalImageManifest image.Manifest = .ok imageManifest)
    (happ : imageManifest.App = some app)
    (hid : api.ambient.NewHash image.Id = .ok id)
    (hpodapp : pod.Apps.head? = some app0) (himage0 : app0.Image = some image0) :
    ∃ podManifest : schema.PodManifest,
      apis.generatePodManifest api image
        (apis.launchAnnotations api subdomain (sprintfD port) net) env = .ok podManifest ∧
      (∀ a : schema.Annotation, a ∈ podManifest.Annotations ↔
        a ∈ [({ Name := api.opts.Specific ++ "-is", Value := "1" } : schema.Annotation),
             { Name := api.opts.Specific ++ "-subdomain", Value := subdomain },
             { Name := api.opts.Specific ++ "-port", Value := sprintfD port },
             { Name := api.opts.Specific ++ "-net", Value := net }]) ∧
      podManifest.Annotations.length = 4 ∧
      (api.ambient.UnmarshalPodManifest pod.Manifest = .ok podManifest →
        ∃ info, apis.podToPodInfo api pod = some info ∧
          info.Subdomain = subdomain ∧ info.Port = port ∧ info.Net = net) := by
  have hmem : ∀ a : schema.Annotation,
      a ∈ apis.annotationsOf api (apis.launchAnnotations api subdomain (sprintfD port) net) ↔
      a ∈ [({ Name := api.opts.Specific ++ "-is", Value := "1" } : schema.Annotation),
           { Name := api.opts.Specific ++ "-subdomain", Value := subdomain },
           { Name := api.opts.Specific ++ "-port", Value := sprintfD port },
           { Name := api.opts.Specific ++ "-net", Value := net }] := by
    intro a
    have h1 : api.opts.Specific ++ "-port" ≠ api.opts.Specific ++ "-net" :=
      append_ne_append _ _ _ (by decide)
    have h2 : api.opts.Specific ++ "-subdomain" ≠ api.opts.Specific ++ "-net" :=
      append_ne_append _ _ _ (by decide)
    have h3 : api.opts.Specific ++ "-is" ≠ api.opts.Specific ++ "-net" :=
      append_ne_append _ _ _ (by decide)
    have h4 : api.opts.Specific ++ "-subdomain" ≠ api.opts.Specific ++ "-port" :=
      append_ne_append _ _ _ (by decide)
    have h5 : api.opts.Specific ++ "-is" ≠ api.opts.Specific ++ "-port" :=
      append_ne_append _ _ _ (by decide)
    have h6 : api.opts.Specific ++ "-is" ≠ api.opts.Specific ++ "-subdomain" :=
      append_ne_append _ _ _ (by decide)
    rw [mem_annotationsOf api _ horder, launchAnnotations_lookup]
    obtain ⟨name, value⟩ := a
    simp only [List.mem_cons, List.mem_singleton, schema.Annotation.mk.injEq, List.not_mem_nil,
      or_false]
    constructor
    · intro h
      split_ifs at h with c1 c2 c3 c4
      · exact Or.inr (Or.inr (Or.inr ⟨c1, (Option.some.inj h).symm⟩))
      · exact Or.inr (Or.inr (Or.inl ⟨c2, (Option.some.inj h).symm⟩))
      · exact Or.inr (Or.inl ⟨c3, (Option.some.inj h).symm⟩)
      · exact Or.inl ⟨c4, (Option.some.inj h).symm⟩
    · rintro (⟨hn, hv⟩ | ⟨hn, hv⟩ | ⟨hn, hv⟩ | ⟨hn, hv⟩)
      · rw [if_neg (hn ▸ h3), if_neg (hn ▸ h5), if_neg (hn ▸ h6), if_pos hn, hv]
      · rw [if_neg (hn ▸ h2), if_neg (hn ▸ h4), if_pos hn, hv]
      · rw [if_neg (hn ▸ h1), if_pos hn, hv]
      · rw [if_pos hn, hv]
  refine ⟨{ Apps := [{ Name := (stringsSplit imageManifest.Name '/').getLastD "",
                        Image := { Name := imageManifest.Name, ID := id,
                                   Labels := imageManifest.Labels },
                        App := some { app with Environment := overlaid app.Environment env } }],
             Annotations := apis.annotationsOf api
               (apis.launchAnnotations api subdomain (sprintfD port) net) }, ?_, hmem, ?_, ?_⟩
  · unfold apis.generatePodManifest
    simp only [hdecode, happ, overlayEnv_some, hid]
    rfl
  · show (apis.annotationsOf api _).length = 4
    rw [annotationsOf_length api _ horder, launchAnnotations_keys_length]
  · intro hcarry
    have hfold := foldl_annotationStep api
      (apis.annotationsOf api (apis.launchAnnotations api subdomain (sprintfD port) net))
      { Uuid := pod.Id, Image := image0.Name ++ ":" ++ image0.Version, Subdomain := "",
        Port := 0, Net := "", Host := "", Running := true, Env := [] }
      (annotationsOf_nodup api _ horder) subdomain (sprintfD port) net
      ((hmem _).mpr (by simp)) ((hmem _).mpr (by simp)) ((hmem _).mpr (by simp))
    rw [Atoi_sprintfD port hlo hhi] at hfold
    refine ⟨(overlaid app.Environment env).foldl apis.envStep
        (pod.Networks.foldl apis.networkStep
          ((apis.annotationsOf api
            (apis.launchAnnotations api subdomain (sprintfD port) net)).foldl
            (apis.annotationStep api)
            { Uuid := pod.Id, Image := image0.Name ++ ":" ++ image0.Version, Subdomain := "",
              Port := 0, Net := "", Host := "", Running := true, Env := [] })), ?_, ?_⟩
    · unfold apis.podToPodInfo apis.decodedPodManifest
      simp only [hcarry, hpodapp, himage0, List.head?_cons]
    · obtain ⟨e1, e2, e3, _⟩ := foldl_envStep_keeps (overlaid app.Environment env)
        (pod.Networks.foldl apis.networkStep
          ((apis.annotationsOf api
            (apis.launchAnnotations api subdomain (sprintfD port) net)).foldl
            (apis.annotationStep api)
            { Uuid := pod.Id, Image := image0.Name ++ ":" ++ image0.Version, Subdomain := "",
              Port := 0, Net := "", Host := "", Running := true, Env := [] }))
      obtain ⟨n1, n2, n3, _⟩ := foldl_networkStep_keeps pod.Networks
          ((apis.annotationsOf api
            (apis.launchAnnotations api subdomain (sprintfD port) net)).foldl
            (apis.annotationStep api)
            { Uuid := pod.Id, Image := image0.Name ++ ":" ++ image0.Version, Subdomain := "",
              Port := 0, Net := "", Host := "", Running := true, Env := [] })
      exact ⟨e1.trans (n1.trans hfold.1), e2.trans (n2.trans hfold.2.1),
        e3.trans (n3.trans hfold.2.2)⟩

/-! ## Routing cache -/

theorem GetPodInfo_calls (api : apis.Api) (sd : String) :
    ∃ rest, (apis.GetPodInfo api sd).2 = Call.ListPods (apis.subdomainFilter api sd) :: rest := by
  unfold apis.GetPodInfo
  split
  · exact ⟨[], rfl⟩
  · exact ⟨_, rfl⟩

theorem newReverseProxy_calls (rp : rproxy.ReverseProxy) (sd : String) :
    (rproxy.newReverseProxy rp sd).2 = (apis.GetPodInfo rp.api sd).2 := by
  unfold rproxy.newReverseProxy
  rcases apis.GetPodInfo rp.api sd with ⟨_ | _ | _, calls⟩
  · simp only
    split
    · rfl
    · split <;> rfl
  · rfl
  · rfl

theorem newReverseProxy_of_error (rp : rproxy.ReverseProxy) (sd err : String)
    (h : (apis.GetPodInfo rp.api sd).1 = .error err) :
    (rproxy.newReverseProxy rp sd).1 = .error err := by
  unfold rproxy.newReverseProxy
  rcases hg : apis.GetPodInfo rp.api sd with ⟨_ | _ | _, calls⟩ <;> rw [hg] at h <;>
    simp_all

theorem newReverseProxy_of_not_running (rp : rproxy.ReverseProxy) (sd : String)
    (info : apis.PodInfo) (h : (apis.GetPodInfo rp.api sd).1 = .ok info)
    (hrun : info.Running = false) :
    (rproxy.newReverseProxy rp sd).1 = .error ("container not running: " ++ sd) := by
  unfold rproxy.newReverseProxy
  rcases hg : apis.GetPodInfo rp.api sd with ⟨_ | _ | _, calls⟩ <;> rw [hg] at h <;>
    simp_all

theorem ServeHTTPWithSubdomain_pending (rp : rproxy.ReverseProxy) (sd : String)
    (h : rp.rpMap.lookup sd = some none) :
    rproxy.ServeHTTPWithSubdomain rp sd =
      match rproxy.newReverseProxy rp sd with
      | (.error err, calls) => { response := some (Response.Error err 500), rp := rp, calls := calls }
      | (.panic, calls) => { response := none, rp := rp, calls := calls }
      | (.ok new, calls) =>
        { response := some (Response.Proxied new.dest),
          rp := { rp with rpMap := rp.rpMap.insert sd (some new) },
          calls := calls } := by
  unfold rproxy.ServeHTTPWithSubdomain
  rw [h]

theorem ServeHTTPWithSubdomain_pending_calls (rp : rproxy.ReverseProxy) (sd : String)
    (h : rp.rpMap.lookup sd = some none) :
    (rproxy.ServeHTTPWithSubdomain rp sd).calls = (apis.GetPodInfo rp.api sd).2 := by
  rw [ServeHTTPWithSubdomain_pending rp sd h, ← newReverseProxy_calls]
  rcases rproxy.newReverseProxy rp sd with ⟨_ | _ | _, calls⟩ <;> rfl

theorem ServeHTTPWithSubdomain_pending_error (rp : rproxy.ReverseProxy) (sd err : String)
    (h : rp.rpMap.lookup sd = some none) (herr : (rproxy.newReverseProxy rp sd).1 = .error err) :
    (rproxy.ServeHTTPWithSubdomain rp sd).response = some (Response.Error err 500) ∧
    (rproxy.ServeHTTPWithSubdomain rp sd).rp.rpMap = rp.rpMap := by
  rw [ServeHTTPWithSubdomain_pending rp sd h]
  rcases hn : rproxy.newReverseProxy rp sd with ⟨_ | _ | _, calls⟩ <;> rw [hn] at herr <;>
    simp_all

theorem newReverseProxy_of_running (rp : rproxy.ReverseProxy) (sd : String)
    (info : apis.PodInfo) (dest : URL) (h : (apis.GetPodInfo rp.api sd).1 = .ok info)
    (hrun : info.Running = true)
    (hurl : rp.api.ambient.urlParse ("http://" ++ info.Host ++ ":" ++ sprintfD info.Port) =
      .ok dest) :
    (rproxy.newReverseProxy rp sd).1 = .ok { dest := dest } := by
  unfold rproxy.newReverseProxy
  rcases hg : apis.GetPodInfo rp.api sd with ⟨_ | _ | _, calls⟩ <;> rw [hg] at h <;>
    simp_all

theorem newReverseProxy_of_parse_error (rp : rproxy.ReverseProxy) (sd : String)
    (info : apis.PodInfo) (err : String) (h : (apis.GetPodInfo rp.api sd).1 = .ok info)
    (hrun : info.Running = true)
    (hurl : rp.api.ambient.urlParse ("http://" ++ info.Host ++ ":" ++ sprintfD info.Port) =
      .error err) :
    (rproxy.newReverseProxy rp sd).1 = .error err := by
  unfold rproxy.newReverseProxy
  rcases hg : apis.GetPodInfo rp.api sd with ⟨_ | _ | _, calls⟩ <;> rw [hg] at h <;>
    simp_all

theorem newReverseProxy_of_panic (rp : rproxy.ReverseProxy) (sd : String)
    (h : (apis.GetPodInfo rp.api sd).1 = .panic) :
    (rproxy.newReverseProxy rp sd).1 = .panic := by
  unfold rproxy.newReverseProxy
  rcases hg : apis.GetPodInfo rp.api sd with ⟨_ | _ | _, calls⟩ <;> rw [hg] at h <;>
    simp_all

theorem ServeHTTPWithSubdomain_pending_ok (rp : rproxy.ReverseProxy) (sd : String)
    (new : rproxy.SingleHostReverseProxy) (h : rp.rpMap.lookup sd = some none)
    (hnew : (rproxy.newReverseProxy rp sd).1 = .ok new) :
    (rproxy.ServeHTTPWithSubdomain rp sd).response = some (Response.Proxied new.dest) ∧
    (rproxy.ServeHTTPWithSubdomain rp sd).rp.rpMap = rp.rpMap.insert sd (some new) ∧
    (rproxy.ServeHTTPWithSubdomain rp sd).rp.rpMap.lookup sd = some (some new) := by
  rw [ServeHTTPWithSubdomain_pending rp sd h]
  rcases hn : rproxy.newReverseProxy rp sd with ⟨_ | _ | _, calls⟩ <;> rw [hn] at hnew
  · simp only [Outcome.ok.injEq] at hnew
    subst hnew
    exact ⟨rfl, rfl, AList.lookup_insert _⟩
  · simp at hnew
  · simp at hnew

theorem ServeHTTPWithSubdomain_pending_panic (rp : rproxy.ReverseProxy) (sd : String)
    (h : rp.rpMap.lookup sd = some none) (hpanic : (rproxy.newReverseProxy rp sd).1 = .panic) :
    (rproxy.ServeHTTPWithSubdomain rp sd).response = none ∧
    (rproxy.ServeHTTPWithSubdomain rp sd).rp.rpMap = rp.rpMap := by
  rw [ServeHTTPWithSubdomain_pending rp sd h]
  rcases hn : rproxy.newReverseProxy rp sd with ⟨_ | _ | _, calls⟩ <;> rw [hn] at hpanic <;>
    simp_all

theorem ServeHTTPWithSubdomain_bound (rp : rproxy.ReverseProxy) (sd : String)
    (backend : rproxy.SingleHostReverseProxy) (h : rp.rpMap.lookup sd = some (some backend)) :
    (rproxy.ServeHTTPWithSubdomain rp sd).response = some (Response.Proxied backend.dest) ∧
    (rproxy.ServeHTTPWithSubdomain rp sd).rp.rpMap = rp.rpMap ∧
    (rproxy.ServeHTTPWithSubdomain rp sd).calls = [] := by
  unfold rproxy.ServeHTTPWithSubdomain
  rw [h]
  exact ⟨rfl, rfl, rfl⟩

/-- C6: for a subdomain present in the routing cache, serving a request
calls the instance registry (`GetPodInfo`, whose first call is the pod
listing) exactly when the entry is Pending.  When Pending and the registry
returns an error, or reports the instance not running, or the address it
reports does not parse, the response is 500 with that error and the cache
is unchanged, so that a retry, whatever the runtime then answers, calls the
registry again.  When Pending and the registry reports a running instance
whose address parses to `dest`, resolution succeeds: the request is served
by the backend for `dest`, the entry becomes Bound to it, and a second
request, whatever the runtime then answers, makes no call and is served by
the same backend.  When the registry panics there is no response and the
cache is unchanged.  When Bound, no call is made and the cache is
unchanged. -/
theorem ServeHTTPWithSubdomain_cache (rp : rproxy.ReverseProxy) (sd : String)
    (hpresent : sd ∈ rp.rpMap) :
    ((rproxy.ServeHTTPWithSubdomain rp sd).calls ≠ [] ↔ rp.rpMap.lookup sd = some none) ∧
    (Call.ListPods (apis.subdomainFilter rp.api sd) ∈ (rproxy.ServeHTTPWithSubdomain rp sd).calls ↔
      rp.rpMap.lookup sd = some none) ∧
    (rp.rpMap.lookup sd = some none →
      (rproxy.ServeHTTPWithSubdomain rp sd).calls = (apis.GetPodInfo rp.api sd).2 ∧
      (∀ err, (apis.GetPodInfo rp.api sd).1 = .error err →
        (rproxy.ServeHTTPWithSubdomain rp sd).response = some (Response.Error err 500) ∧
        (rproxy.ServeHTTPWithSubdomain rp sd).rp.rpMap = rp.rpMap) ∧
      (∀ info, (apis.GetPodInfo rp.api sd).1 = .ok info → info.Running = false →
        (rproxy.ServeHTTPWithSubdomain rp sd).response =
          some (Response.Error ("container not running: " ++ sd) 500) ∧
        (rproxy.ServeHTTPWithSubdomain rp sd).rp.rpMap = rp.rpMap) ∧
      (∀ err, (rproxy.newReverseProxy rp sd).1 = .error err →
        (rproxy.ServeHTTPWithSubdomain rp sd).response = some (Response.Error err 500) ∧
        (rproxy.ServeHTTPWithSubdomain rp sd).rp.rpMap = rp.rpMap ∧
        (rproxy.ServeHTTPWithSubdomain rp sd).rp.rpMap.lookup sd = some none ∧
        ∀ api,
          (rproxy.ServeHTTPWithSubdomain
            { (rproxy.ServeHTTPWithSubdomain rp sd).rp with api := api } sd).calls =
            (apis.GetPodInfo api sd).2 ∧
          (rproxy.ServeHTTPWithSubdomain
            { (rproxy.ServeHTTPWithSubdomain rp sd).rp with api := api } sd).calls ≠ []) ∧
      (∀ new, (rproxy.newReverseProxy rp sd).1 = .ok new →
        (rproxy.ServeHTTPWithSubdomain rp sd).response = some (Response.Proxied new.dest) ∧
        (rproxy.ServeHTTPWithSubdomain rp sd).rp.rpMap = rp.rpMap.insert sd (some new) ∧
        (rproxy.ServeHTTPWithSubdomain rp sd).rp.rpMap.lookup sd = some (some new)) ∧
      (∀ info dest, (apis.GetPodInfo rp.api sd).1 = .ok info → info.Running = true →
        rp.api.ambient.urlParse ("http://" ++ info.Host ++ ":" ++ sprintfD info.Port) =
          .ok dest →
        (rproxy.ServeHTTPWithSubdomain rp sd).response = some (Response.Proxied dest) ∧
        (rproxy.ServeHTTPWithSubdomain rp sd).rp.rpMap =
          rp.rpMap.insert sd (some { dest := dest }) ∧
        (rproxy.ServeHTTPWithSubdomain rp sd).rp.rpMap.lookup sd = some (some { dest := dest }) ∧
        ∀ api,
          (rproxy.ServeHTTPWithSubdomain
            { (rproxy.ServeHTTPWithSubdomain rp sd).rp with api := api } sd).calls = [] ∧
          (rproxy.ServeHTTPWithSubdomain
            { (rproxy.ServeHTTPWithSubdomain rp sd).rp with api := api } sd).response =
            some (Response.Proxied dest) ∧
          (rproxy.ServeHTTPWithSubdomain
            { (rproxy.ServeHTTPWithSubdomain rp sd).rp with api := api } sd).rp.rpMap =
            rp.rpMap.insert sd (some { dest := dest })) ∧
      (∀ info err, (apis.GetPodInfo rp.api sd).1 = .ok info → info.Running = true →
        rp.api.ambient.urlParse ("http://" ++ info.Host ++ ":" ++ sprintfD info.Port) =
          .error err →
        (rproxy.ServeHTTPWithSubdomain rp sd).response = some (Response.Error err 500) ∧
        (rproxy.ServeHTTPWithSubdomain rp sd).rp.rpMap = rp.rpMap) ∧
      ((apis.GetPodInfo rp.api sd).1 = .panic →
        (rproxy.ServeHTTPWithSubdomain rp sd).response = none ∧
        (rproxy.ServeHTTPWithSubdomain rp sd).rp.rpMap = rp.rpMap)) ∧
    (∀ backend, rp.rpMap.lookup sd = some (some backend) →
      (rproxy.ServeHTTPWithSubdomain rp sd).response = some (Response.Proxied backend.dest) ∧
      (rproxy.ServeHTTPWithSubdomain rp sd).rp.rpMap = rp.rpMap ∧
      (rproxy.ServeHTTPWithSubdomain rp sd).calls = []) := by
  have hsome : ∃ entry, rp.rpMap.lookup sd = some entry := by
    have := AList.lookup_isSome.mpr hpresent
    exact Option.isSome_iff_exists.mp this
  obtain ⟨entry, hentry⟩ := hsome
  have hbound : ∀ backend, rp.rpMap.lookup sd = some (some backend) →
      (rproxy.ServeHTTPWithSubdomain rp sd).response = some (Response.Proxied backend.dest) ∧
      (rproxy.ServeHTTPWithSubdomain rp sd).rp.rpMap = rp.rpMap ∧
      (rproxy.ServeHTTPWithSubdomain rp sd).calls = [] := by
    intro backend hb
    unfold rproxy.ServeHTTPWithSubdomain
    rw [hb]
    exact ⟨rfl, rfl, rfl⟩
  have hcalls : ∀ (r : rproxy.ReverseProxy), r.rpMap.lookup sd = some none →
      (rproxy.ServeHTTPWithSubdomain r sd).calls ≠ [] ∧
      Call.ListPods (apis.subdomainFilter r.api sd) ∈ (rproxy.ServeHTTPWithSubdomain r sd).calls := by
    intro r hr
    obtain ⟨rest, hrest⟩ := GetPodInfo_calls r.api sd
    rw [ServeHTTPWithSubdomain_pending_calls r sd hr, hrest]
    simp
  refine ⟨?_, ?_, ?_, hbound⟩
  · constructor
    · intro hne
      cases entry with
      | none => exact hentry
      | some backend => exact absurd (hbound backend hentry).2.2 hne
    · intro hp
      exact (hcalls rp hp).1
  · constructor
    · intro hmem
      cases entry with
      | none => exact hentry
      | some backend =>
        rw [(hbound backend hentry).2.2] at hmem
        simp at hmem
    · intro hp
      exact (hcalls rp hp).2
  · intro hp
    refine ⟨ServeHTTPWithSubdomain_pending_calls rp sd hp, ?_, ?_, ?_, ?_, ?_, ?_, ?_⟩
    · intro err herr
      exact ServeHTTPWithSubdomain_pending_error rp sd err hp (newReverseProxy_of_error rp sd err herr)
    · intro info hinfo hrun
      exact ServeHTTPWithSubdomain_pending_error rp sd _ hp
        (newReverseProxy_of_not_running rp sd info hinfo hrun)
    · intro err herr
      obtain ⟨h1, h2⟩ := ServeHTTPWithSubdomain_pending_error rp sd err hp herr
      refine ⟨h1, h2, by rw [h2]; exact hp, ?_⟩
      intro api
      have hp' : ({ (rproxy.ServeHTTPWithSubdomain rp sd).rp with api := api } :
          rproxy.ReverseProxy).rpMap.lookup sd = some none := by
        show (rproxy.ServeHTTPWithSubdomain rp sd).rp.rpMap.lookup sd = some none
        rw [h2]
        exact hp
      exact ⟨ServeHTTPWithSubdomain_pending_calls _ sd hp', (hcalls _ hp').1⟩
    · intro new hnew
      exact ServeHTTPWithSubdomain_pending_ok rp sd new hp hnew
    · intro info dest hinfo hrun hurl
      obtain ⟨h1, h2, h3⟩ := ServeHTTPWithSubdomain_pending_ok rp sd { dest := dest } hp
        (newReverseProxy_of_running rp sd info dest hinfo hrun hurl)
      refine ⟨h1, h2, h3, ?_⟩
      intro api
      have hb : ({ (rproxy.ServeHTTPWithSubdomain rp sd).rp with api := api } :
          rproxy.ReverseProxy).rpMap.lookup sd = some (some { dest := dest }) := h3
      obtain ⟨b1, b2, b3⟩ := ServeHTTPWithSubdomain_bound _ sd _ hb
      exact ⟨b3, b1, b2.trans h2⟩
    · intro info err hinfo hrun hurl
      exact ServeHTTPWithSubdomain_pending_error rp sd err hp
        (newReverseProxy_of_parse_error rp sd info err hinfo hrun hurl)
    · intro hpanic
      exact ServeHTTPWithSubdomain_pending_panic rp sd hp (newReverseProxy_of_panic rp sd hpanic)

/-- C7: a terminate request for `sd` that binds without errors and whose
stop job is issued and reports `done` answers ok and removes `sd` from the
routing cache, whatever its state was; a request routed to `sd` afterwards,
whatever the runtime would answer, gets 404, makes no call and leaves the
cache as it is. -/
theorem terminate_unbinds (a : apps.Apps) (sd : String)
    (hstop : a.api.dbusConn.StopUnit (apis.withPrefix a.api (sd ++ ".service")) "replace" =
      .ok "done") :
    (apps.terminate a ({ Subdomain := sd }, [])).response = some apps.renderOK ∧
    (apps.terminate a ({ Subdomain := sd }, [])).apps.rp.rpMap = a.rp.rpMap.erase sd ∧
    sd ∉ (apps.terminate a ({ Subdomain := sd }, [])).apps.rp.rpMap ∧
    ∀ api,
      (rproxy.ServeHTTPWithSubdomain
        { (apps.terminate a ({ Subdomain := sd }, [])).apps.rp with api := api } sd).response =
        some Response.NotFound ∧
      (rproxy.ServeHTTPWithSubdomain
        { (apps.terminate a ({ Subdomain := sd }, [])).apps.rp with api := api } sd).calls = [] ∧
      (rproxy.ServeHTTPWithSubdomain
        { (apps.terminate a ({ Subdomain := sd }, [])).apps.rp with api := api } sd).rp.rpMap =
        a.rp.rpMap.erase sd := by
  have hstopped : apis.Stop a.api sd =
      (.ok (), [Call.StopUnit (apis.withPrefix a.api (sd ++ ".service")) "replace"]) := by
    unfold apis.Stop
    rw [hstop]
    rfl
  have hterm : (apps.terminate a ({ Subdomain := sd }, [])) =
      { response := some apps.renderOK, apps := { a with rp := rproxy.Del a.rp sd },
        calls := [Call.StopUnit (apis.withPrefix a.api (sd ++ ".service")) "replace"] } := by
    unfold apps.terminate
    simp only [List.length_nil, lt_irrefl, if_false, hstopped]
  rw [hterm]
  have hlook : (a.rp.rpMap.erase sd).lookup sd = none := AList.lookup_erase sd _
  refine ⟨rfl, rfl, ?_, ?_⟩
  · exact AList.lookup_eq_none.mp hlook
  · intro api
    simp [rproxy.ServeHTTPWithSubdomain, rproxy.Del, hlook]

/-! ## Init-system jobs -/

/-- C9, as stated, fails for stop: with an init system that accepts every
job and reports `done`, `Stop` succeeds and the only call it makes is the
stop job; there is no reload. -/
theorem Stop_without_reload :
    (apis.Stop demoApi "app1").1 = .ok () ∧
    (apis.Stop demoApi "app1").2 = [Call.StopUnit "phantasma-app1.service" "replace"] ∧
    Call.Reload ∉ (apis.Stop demoApi "app1").2 := by
  decide

/-- C9, amended: start first reloads the init system and issues its restart
job for the unit `prefix-subdomain.service`, in mode replace, only after a
successful reload, and `runByImage` makes these calls after those of the
unit installation; stop issues its stop job for the same unit, in mode
replace, as its only call. -/
theorem start_reloads_then_job (api : apis.Api) (sd : String) :
    (∃ rest, (apis.startUnit api sd).2 = Call.Reload :: rest) ∧
    (api.dbusConn.Reload = none →
      (apis.startUnit api sd).2 =
        [Call.Reload, Call.RestartUnit (api.opts.Specific ++ "-" ++ (sd ++ ".service")) "replace"]) ∧
    (∀ err, api.dbusConn.Reload = some err →
      (apis.startUnit api sd).2 = [Call.Reload] ∧ (apis.startUnit api sd).1 = .error err) ∧
    (∀ (image : v1alpha.Image) (port net : String) (env : forms.Envs)
      (podManifest : schema.PodManifest),
      apis.generatePodManifest api image (apis.launchAnnotations api sd port net) env =
        .ok podManifest →
      (apis.createUnit api podManifest sd).1 = none →
      (apis.runByImage api image sd port net env).2 =
        (apis.createUnit api podManifest sd).2 ++ (apis.startUnit api sd).2) ∧
    (apis.Stop api sd).2 =
      [Call.StopUnit (api.opts.Specific ++ "-" ++ (sd ++ ".service")) "replace"] := by
  refine ⟨?_, ?_, ?_, ?_, ?_⟩
  · unfold apis.startUnit
    split
    · exact ⟨_, rfl⟩
    · split
      · exact ⟨_, rfl⟩
      · split <;> exact ⟨_, rfl⟩
  · intro h
    unfold apis.startUnit
    rw [h]
    simp only [apis.withPrefix]
    split
    · rfl
    · split <;> rfl
  · intro err h
    unfold apis.startUnit
    rw [h]
    exact ⟨rfl, rfl⟩
  · intro image port net env podManifest hgen hunit
    unfold apis.runByImage
    simp only [hgen]
    rcases hc : apis.createUnit api podManifest sd with ⟨_ | err, calls⟩
    · rfl
    · rw [hc] at hunit
      simp at hunit
  · unfold apis.Stop
    simp only [apis.withPrefix]
    split
    · rfl
    · split <;> rfl

/-- C10: once the job was issued without error and the init system
delivers the result `job`, start (after a successful reload), `runByImage`
(after a successful installation of the unit and reload) and stop return
success when `job` is `done` and return the error `job is not done: job`
when it is anything else. -/
theorem job_result_decides (api : apis.Api) (sd job : String) :
    (api.dbusConn.Reload = none →
      api.dbusConn.RestartUnit (apis.withPrefix api (sd ++ ".service")) "replace" = .ok job →
      ((job = "done" → (apis.startUnit api sd).1 = .ok ()) ∧
       (job ≠ "done" → (apis.startUnit api sd).1 = .error ("job is not done: " ++ job)) ∧
       ((∃ err, (apis.startUnit api sd).1 = .error err) ↔ job ≠ "done")) ∧
      ∀ (image : v1alpha.Image) (port net : String) (env : forms.Envs)
        (podManifest : schema.PodManifest),
        apis.generatePodManifest api image (apis.launchAnnotations api sd port net) env =
          .ok podManifest →
        (apis.createUnit api podManifest sd).1 = none →
        (job = "done" → (apis.runByImage api image sd port net env).1 = .ok ()) ∧
        (job ≠ "done" →
          (apis.runByImage api image sd port net env).1 = .error ("job is not done: " ++ job)) ∧
        ((∃ err, (apis.runByImage api image sd port net env).1 = .error err) ↔ job ≠ "done")) ∧
    (api.dbusConn.StopUnit (apis.withPrefix api (sd ++ ".service")) "replace" = .ok job →
      (job = "done" → (apis.Stop api sd).1 = .ok ()) ∧
      (job ≠ "done" → (apis.Stop api sd).1 = .error ("job is not done: " ++ job)) ∧
      ((∃ err, (apis.Stop api sd).1 = .error err) ↔ job ≠ "done")) := by
  constructor
  · intro hreload hjob
    have hstart : (apis.startUnit api sd).1 =
        if job ≠ "done" then .error ("job is not done: " ++ job) else .ok () := by
      unfold apis.startUnit
      rw [hreload]
      simp only [hjob]
      split <;> rfl
    have hthree : ∀ r : Outcome Unit,
        r = (if job ≠ "done" then .error ("job is not done: " ++ job) else .ok ()) →
        (job = "done" → r = .ok ()) ∧
        (job ≠ "done" → r = .error ("job is not done: " ++ job)) ∧
        ((∃ err, r = .error err) ↔ job ≠ "done") := by
      intro r hr
      by_cases hd : job = "done"
      · rw [if_neg (not_not.mpr hd)] at hr
        refine ⟨fun _ => hr, fun h => absurd hd h, ?_⟩
        constructor
        · rintro ⟨err, herr⟩
          rw [hr] at herr
          simp at herr
        · intro h
          exact absurd hd h
      · rw [if_pos hd] at hr
        exact ⟨fun h => absurd h hd, fun _ => hr, fun _ => hd, fun _ => ⟨_, hr⟩⟩
    refine ⟨hthree _ hstart, ?_⟩
    intro image port net env podManifest hgen hunit
    apply hthree
    rw [← hstart]
    unfold apis.runByImage
    simp only [hgen]
    rcases hc : apis.createUnit api podManifest sd with ⟨_ | err, calls⟩
    · rfl
    · rw [hc] at hunit
      simp at hunit
  · intro hjob
    have hstop : (apis.Stop api sd).1 =
        if job ≠ "done" then .error ("job is not done: " ++ job) else .ok () := by
      unfold apis.Stop
      simp only [hjob]
      split <;> rfl
    by_cases hd : job = "done"
    · rw [if_neg (not_not.mpr hd)] at hstop
      refine ⟨fun _ => hstop, fun h => absurd hd h, ?_⟩
      constructor
      · rintro ⟨err, herr⟩
        rw [hstop] at herr
        simp at herr
      · intro h
        exact absurd hd h
    · rw [if_pos hd] at hstop
      exact ⟨fun h => absurd h hd, fun _ => hstop, fun _ => hd, fun _ => ⟨_, hstop⟩⟩

/-! ## Order of strings and the listing -/

theorem charsLess_asymm (a b : List Char) (h : charsLess a b = true) : charsLess b a = false := by
  induction a generalizing b with
  | nil => cases b <;> simp_all [charsLess]
  | cons x xs ih =>
    cases b with
    | nil => simp [charsLess] at h
    | cons y ys =>
      unfold charsLess at h ⊢
      by_cases h1 : x.toNat < y.toNat
      · have h2 : ¬ y.toNat < x.toNat := by omega
        simp [h1, h2]
      · by_cases h2 : y.toNat < x.toNat
        · simp [h1, h2] at h
        · simp only [h1, h2, if_false] at h ⊢
          exact ih ys h

theorem charsLess_trans (a b c : List Char) (hab : charsLess a b = true)
    (hbc : charsLess b c = true) : charsLess a c = true := by
  induction a generalizing b c with
  | nil =>
    cases c with
    | nil => cases b <;> simp [charsLess] at hbc
    | cons z zs => simp [charsLess]
  | cons x xs ih =>
    cases b with
    | nil => simp [charsLess] at hab
    | cons y ys =>
      cases c with
      | nil => simp [charsLess] at hbc
      | cons z zs =>
        unfold charsLess at hab hbc ⊢
        by_cases h1 : x.toNat < y.toNat
        · by_cases h2 : y.toNat < z.toNat
          · have : x.toNat < z.toNat := by omega
            simp [this]
          · by_cases h3 : z.toNat < y.toNat
            · simp [h2, h3] at hbc
            · have : x.toNat < z.toNat := by omega
              simp [this]
        · by_cases h1' : y.toNat < x.toNat
          · simp [h1, h1'] at hab
          · simp only [h1, h1', if_false] at hab
            by_cases h2 : y.toNat < z.toNat
            · have : x.toNat < z.toNat := by omega
              simp [this]
            · by_cases h3 : z.toNat < y.toNat
              · simp [h2, h3] at hbc
              · simp only [h2, h3, if_false] at hbc
                have e1 : ¬ x.toNat < z.toNat := by omega
                have e2 : ¬ z.toNat < x.toNat := by omega
                simp only [e1, e2, if_false]
                exact ih ys zs hab hbc

theorem charsLess_connected (a b : List Char) (hab : charsLess a b = false)
    (hba : charsLess b a = false) : a = b := by
  induction a generalizing b with
  | nil =>
    cases b with
    | nil => rfl
    | cons y ys => simp [charsLess] at hab
  | cons x xs ih =>
    cases b with
    | nil => simp [charsLess] at hba
    | cons y ys =>
      unfold charsLess at hab hba
      by_cases h1 : x.toNat < y.toNat
      · simp [h1] at hab
      · by_cases h2 : y.toNat < x.toNat
        · simp [h2] at hba
        · simp only [h1, h2, if_false] at hab hba
          have hxy : x = y := by
            have e : x.toNat = y.toNat := by omega
            have := congrArg Char.ofNat e
            simpa using this
          rw [hxy, ih ys hab hba]

theorem stringLE_total (a b : String) : stringLE a b ∨ stringLE b a := by
  unfold stringLE
  cases h : charsLess b.data a.data with
  | false => exact Or.inl rfl
  | true => exact Or.inr (charsLess_asymm _ _ h)

theorem stringLE_trans (a b c : String) (hab : stringLE a b) (hbc : stringLE b c) :
    stringLE a c := by
  unfold stringLE at hab hbc ⊢
  cases hca : charsLess c.data a.data with
  | false => rfl
  | true =>
    cases h : charsLess a.data b.data with
    | true =>
      have := charsLess_trans _ _ _ hca h
      rw [this] at hbc
      exact absurd hbc (by decide)
    | false =>
      have e := charsLess_connected _ _ h hab
      rw [e] at hca
      rw [hca] at hbc
      exact absurd hbc (by decide)

theorem stringLE_ne_lt (a b : String) (hab : stringLE a b) (hne : a ≠ b) :
    charsLess a.data b.data = true := by
  unfold stringLE at hab
  cases h : charsLess a.data b.data with
  | true => rfl
  | false => exact absurd (String.ext (charsLess_connected _ _ h hab)) hne

theorem sortStrings_perm (l : List String) : (sortStrings l).Perm l :=
  List.perm_insertionSort _ l

theorem sortStrings_sorted (l : List String) : (sortStrings l).Sorted stringLE := by
  haveI : IsTotal String stringLE := ⟨stringLE_total⟩
  haveI : IsTrans String stringLE := ⟨stringLE_trans⟩
  exact List.sorted_insertionSort _ l

theorem sortStrings_strict (l : List String) (h : l.Nodup) :
    (sortStrings l).Sorted (fun a b => charsLess a.data b.data = true) := by
  have hs := sortStrings_sorted l
  have hn : (sortStrings l).Nodup := (sortStrings_perm l).nodup_iff.mpr h
  exact (List.Pairwise.and hs hn).imp (fun hab => stringLE_ne_lt _ _ hab.1 hab.2)

/-- Every value stored by the loop of `PodInfoMap` sits under its own subdomain. -/
theorem podInfoMapLoop_keys (api : apis.Api) (pods : List v1alpha.Pod)
    (acc result : GoMap apis.PodInfo)
    (hacc : ∀ k v, acc.lookup k = some v → v.Subdomain = k)
    (hres : (apis.podInfoMapLoop api pods acc).1 = .ok result) :
    ∀ k v, result.lookup k = some v → v.Subdomain = k := by
  induction pods generalizing acc with
  | nil =>
    simp only [apis.podInfoMapLoop, Outcome.ok.injEq] at hres
    subst hres
    exact hacc
  | cons pod rest ih =>
    unfold apis.podInfoMapLoop at hres
    split at hres
    · simp at hres
    · exact ih acc hacc hres
    · split at hres
      · simp at hres
      · rename_i info _
        refine ih (acc.insert info.Subdomain info) ?_ hres
        intro k v hk
        by_cases hki : k = info.Subdomain
        · subst hki
          rw [AList.lookup_insert] at hk
          rw [← Option.some.inj hk]
        · rw [AList.lookup_insert_ne hki] at hk
          exact hacc k v hk

theorem PodInfoMap_keys (api : apis.Api) (result : GoMap apis.PodInfo) (calls : List Call)
    (h : apis.PodInfoMap api = (.ok result, calls)) :
    ∀ k v, result.lookup k = some v → v.Subdomain = k := by
  unfold apis.PodInfoMap at h
  split at h
  · simp at h
  · rename_i pods _
    have h1 := congrArg Prod.fst h
    simp only at h1
    exact podInfoMapLoop_keys api pods ∅ result (fun k v hk => by simp at hk) h1

/-- C8: when `PodInfoMap` returns the map `podInfoMap` of the instances the
runtime reports, whatever order the runtime lists them in and whatever
order the run time ranges over the cache, `List` returns a list whose
subdomains are the subdomains of the cache, each once, in strictly
ascending order; the entry of a subdomain the runtime reports is the
runtime's info, the entry of any other subdomain is the placeholder with
that subdomain and not running. -/
theorem List_sorted_entries (rp : rproxy.ReverseProxy) (podInfoMap : GoMap apis.PodInfo)
    (calls : List Call)
    (horder : ∀ keys, (rp.api.ambient.rangeOrder keys).Perm keys)
    (hmap : apis.PodInfoMap rp.api = (.ok podInfoMap, calls)) :
    ∃ result : List apis.PodInfo,
      rproxy.List rp = (.ok result, calls) ∧
      (result.map (·.Subdomain)).Perm rp.rpMap.keys ∧
      (result.map (·.Subdomain)).Nodup ∧
      (result.map (·.Subdomain)).Sorted (fun a b => charsLess a.data b.data = true) ∧
      (∀ info ∈ result, ∀ v, podInfoMap.lookup info.Subdomain = some v → info = v) ∧
      (∀ info ∈ result, podInfoMap.lookup info.Subdomain = none →
        info = rproxy.placeholder info.Subdomain ∧ info.Running = false) := by
  have hkeys := PodInfoMap_keys rp.api podInfoMap calls hmap
  have hsub : ∀ sd : String,
      (match podInfoMap.lookup sd with
        | some v => v
        | none => rproxy.placeholder sd).Subdomain = sd := by
    intro sd
    cases hl : AList.lookup sd podInfoMap with
    | none => rfl
    | some v => exact hkeys sd v hl
  have hnames : ((rproxy.subdomainList rp).map (fun subdomain =>
      match podInfoMap.lookup subdomain with
      | some v => v
      | none => rproxy.placeholder subdomain)).map (·.Subdomain) = rproxy.subdomainList rp := by
    rw [List.map_map]
    conv_rhs => rw [← List.map_id (rproxy.subdomainList rp)]
    exact List.map_congr_left (fun sd _ => hsub sd)
  have hnodup : (rp.api.ambient.rangeOrder rp.rpMap.keys).Nodup :=
    (horder rp.rpMap.keys).nodup_iff.mpr rp.rpMap.keys_nodup
  refine ⟨(rproxy.subdomainList rp).map (fun subdomain =>
      match podInfoMap.lookup subdomain with
      | some v => v
      | none => rproxy.placeholder subdomain), ?_, ?_, ?_, ?_, ?_, ?_⟩
  · unfold rproxy.List
    rw [hmap]
  · rw [hnames]
    exact (sortStrings_perm _).trans (horder rp.rpMap.keys)
  · rw [hnames]
    exact (sortStrings_perm _).nodup_iff.mpr hnodup
  · rw [hnames]
    exact sortStrings_strict _ hnodup
  · intro info hinfo v hv
    obtain ⟨sd, _, rfl⟩ := List.mem_map.mp hinfo
    rw [hsub sd] at hv
    rw [hv]
  · intro info hinfo hnone
    obtain ⟨sd, _, rfl⟩ := List.mem_map.mp hinfo
    rw [hsub sd] at hnone ⊢
    rw [hnone]
    exact ⟨rfl, rfl⟩

/-! ## The theorems at the concrete runtime -/

theorem demo_getImageByName : apis.getImageByName demoApi "foo/bar:1.0" =
    (.ok demoImage,
      [Call.ListImages
        { Prefixes := ["foo"], BaseNames := ["bar"], Labels := [{ Key := "version", Value := "1.0" }] },
       Call.InspectImage "sha512-abc"]) := by
  decide

theorem demo_generatePodManifest : apis.generatePodManifest demoApi demoImage
    (apis.launchAnnotations demoApi "app1" (sprintfD 8080) "default")
    [{ Key := "X", Val := "1" }] = .ok demoPodManifest := by
  decide

theorem demo_podToPodInfo : apis.podToPodInfo demoApi demoPod = some demoPodInfo := by decide

theorem demo_PodInfoMap : apis.PodInfoMap demoApi =
    (.ok ((∅ : GoMap apis.PodInfo).insert "app1" demoPodInfo),
      [Call.ListPods (apis.markerFilter demoApi), Call.InspectPod "pod-1"]) := by
  rfl

theorem demo_List : (rproxy.List demoCache).1 =
    .ok [demoPodInfo, rproxy.placeholder "gone", rproxy.placeholder "web"] := by decide

theorem getImageByName_by_count_witness :
    demoApi.apiClient.ListImages
      (apis.imageFilter (apis.splitImageName "foo/bar:1.0").1
        (apis.splitImageName "foo/bar:1.0").2.1 (apis.splitImageName "foo/bar:1.0").2.2.1) =
      .ok [demoImage] ∧
    apis.getImageByName demoApi "foo/bar:1.0" =
      ((apis.getImageById demoApi demoImage.Id).1,
        Call.ListImages (apis.imageFilter (apis.splitImageName "foo/bar:1.0").1
          (apis.splitImageName "foo/bar:1.0").2.1 (apis.splitImageName "foo/bar:1.0").2.2.1) ::
          (apis.getImageById demoApi demoImage.Id).2) :=
  ⟨rfl, (getImageByName_by_count demoApi "foo/bar:1.0" [demoImage] rfl).2.2 demoImage rfl⟩

theorem generatePodManifest_environment_witness :
    (demoApi.ambient.UnmarshalImageManifest demoImage.Manifest = .ok demoImageManifest ∧
      demoImageManifest.App = some
        { Environment := [{ Name := "X", Value := "0" }, { Name := "Y", Value := "2" }],
          Other := "exec" } ∧
      demoApi.ambient.NewHash demoImage.Id = .ok { typ := "sha512", Val := "abc" } ∧
      (([{ Name := "X", Value := "0" }, { Name := "Y", Value := "2" }] :
        schema.Environment).map (·.Name)).Nodup) ∧
    ∃ (podManifest : schema.PodManifest) (runtimeApp : schema.RuntimeApp) (merged : schema.App),
      apis.generatePodManifest demoApi demoImage ∅
        [{ Key := "X", Val := "7" }, { Key := "X", Val := "1" }] = .ok podManifest ∧
      podManifest.Apps = [runtimeApp] ∧ runtimeApp.App = some merged ∧
      (merged.Environment.map (·.Name)).Nodup ∧
      (∀ (pre post : forms.Envs) (k v : String),
        ([{ Key := "X", Val := "7" }, { Key := "X", Val := "1" }] : forms.Envs) =
          pre ++ { Key := k, Val := v } :: post → k ∉ post.map (·.Key) →
        schema.Environment.Get merged.Environment k = some v) ∧
      (∀ declared ∈ ([{ Name := "X", Value := "0" }, { Name := "Y", Value := "2" }] :
          schema.Environment),
        declared.Name ∉ ([{ Key := "X", Val := "7" }, { Key := "X", Val := "1" }] :
          forms.Envs).map (·.Key) →
        schema.Environment.Get merged.Environment declared.Name = some declared.Value) :=
  ⟨⟨rfl, rfl, rfl, by decide⟩,
   generatePodManifest_environment demoApi demoImage ∅
     [{ Key := "X", Val := "7" }, { Key := "X", Val := "1" }] demoImageManifest
     { Environment := [{ Name := "X", Value := "0" }, { Name := "Y", Value := "2" }],
       Other := "exec" }
     { typ := "sha512", Val := "abc" } rfl rfl rfl (by decide)⟩

theorem launch_annotations_recovered_witness :
    (-(2 ^ 63 : Int) ≤ 8080 ∧ (8080 : Int) < 2 ^ 63 ∧
      (∀ keys, (demoApi.ambient.rangeOrder keys).Perm keys) ∧
      demoApi.ambient.UnmarshalImageManifest demoImage.Manifest = .ok demoImageManifest ∧
      demoPod.Apps.head? = some { Name := "bar", Image := some demoImage }) ∧
    ∃ podManifest : schema.PodManifest,
      apis.generatePodManifest demoApi demoImage
        (apis.launchAnnotations demoApi "app1" (sprintfD 8080) "default")
        [{ Key := "X", Val := "1" }] = .ok podManifest ∧
      (∀ a : schema.Annotation, a ∈ podManifest.Annotations ↔
        a ∈ [({ Name := demoApi.opts.Specific ++ "-is", Value := "1" } : schema.Annotation),
             { Name := demoApi.opts.Specific ++ "-subdomain", Value := "app1" },
             { Name := demoApi.opts.Specific ++ "-port", Value := sprintfD 8080 },
             { Name := demoApi.opts.Specific ++ "-net", Value := "default" }]) ∧
      podManifest.Annotations.length = 4 ∧
      (demoApi.ambient.UnmarshalPodManifest demoPod.Manifest = .ok podManifest →
        ∃ info, apis.podToPodInfo demoApi demoPod = some info ∧
          info.Subdomain = "app1" ∧ info.Port = 8080 ∧ info.Net = "default") :=
  ⟨⟨by norm_num, by norm_num, fun keys => List.reverse_perm keys, rfl, rfl⟩,
   launch_annotations_recovered demoApi demoImage "app1" "default" 8080
     [{ Key := "X", Val := "1" }] demoImageManifest
     { Environment := [{ Name := "X", Value := "0" }, { Name := "Y", Value := "2" }],
       Other := "exec" }
     { typ := "sha512", Val := "abc" } demoPod { Name := "bar", Image := some demoImage }
     demoImage (by norm_num) (by norm_num) (fun keys => List.reverse_perm keys) rfl rfl rfl rfl
     rfl⟩

theorem demoCache_app1 : "app1" ∈ demoCache.rpMap :=
  AList.lookup_isSome.mp (by decide)

theorem ServeHTTPWithSubdomain_cache_witness :
    ("app1" ∈ demoCache.rpMap ∧
      demoCache.rpMap.lookup "app1" = some none ∧
      (apis.GetPodInfo demoCache.api "app1").1 = .ok demoPodInfo ∧
      demoPodInfo.Running = true ∧
      demoCache.api.ambient.urlParse
        ("http://" ++ demoPodInfo.Host ++ ":" ++ sprintfD demoPodInfo.Port) =
        .ok { Scheme := "http", Host := "172.16.28.2:8080" }) ∧
    (rproxy.ServeHTTPWithSubdomain demoCache "app1").calls ≠ [] ∧
    (rproxy.ServeHTTPWithSubdomain demoCache "app1").calls = (apis.GetPodInfo demoApi "app1").2 ∧
    (rproxy.ServeHTTPWithSubdomain demoCache "app1").response =
      some (Response.Proxied { Scheme := "http", Host := "172.16.28.2:8080" }) ∧
    (rproxy.ServeHTTPWithSubdomain demoCache "app1").rp.rpMap.lookup "app1" =
      some (some { dest := { Scheme := "http", Host := "172.16.28.2:8080" } }) ∧
    (rproxy.ServeHTTPWithSubdomain
      { (rproxy.ServeHTTPWithSubdomain demoCache "app1").rp with api := demoApi } "app1").calls =
      [] :=
  ⟨⟨demoCache_app1, by decide, by decide, rfl, rfl⟩,
   (ServeHTTPWithSubdomain_cache demoCache "app1" demoCache_app1).1.mpr (by decide),
   ((ServeHTTPWithSubdomain_cache demoCache "app1" demoCache_app1).2.2.1 (by decide)).1,
   (((ServeHTTPWithSubdomain_cache demoCache "app1" demoCache_app1).2.2.1
      (by decide)).2.2.2.2.2.1 demoPodInfo { Scheme := "http", Host := "172.16.28.2:8080" }
      (by decide) rfl rfl).1,
   (((ServeHTTPWithSubdomain_cache demoCache "app1" demoCache_app1).2.2.1
      (by decide)).2.2.2.2.2.1 demoPodInfo { Scheme := "http", Host := "172.16.28.2:8080" }
      (by decide) rfl rfl).2.2.1,
   ((((ServeHTTPWithSubdomain_cache demoCache "app1" demoCache_app1).2.2.1
      (by decide)).2.2.2.2.2.1 demoPodInfo { Scheme := "http", Host := "172.16.28.2:8080" }
      (by decide) rfl rfl).2.2.2 demoApi).1⟩

theorem terminate_unbinds_witness :
    demoApps.api.dbusConn.StopUnit (apis.withPrefix demoApps.api ("app1" ++ ".service")) "replace" =
      .ok "done" ∧
    (apps.terminate demoApps ({ Subdomain := "app1" }, [])).response = some apps.renderOK ∧
    "app1" ∉ (apps.terminate demoApps ({ Subdomain := "app1" }, [])).apps.rp.rpMap ∧
    (rproxy.ServeHTTPWithSubdomain
      { (apps.terminate demoApps ({ Subdomain := "app1" }, [])).apps.rp with api := demoApi }
      "app1").response = some Response.NotFound :=
  ⟨rfl, (terminate_unbinds demoApps "app1" rfl).1, (terminate_unbinds demoApps "app1" rfl).2.2.1,
   ((terminate_unbinds demoApps "app1" rfl).2.2.2 demoApi).1⟩

theorem List_sorted_entries_witness :
    ((∀ keys, (demoCache.api.ambient.rangeOrder keys).Perm keys) ∧
      apis.PodInfoMap demoCache.api =
        (.ok ((∅ : GoMap apis.PodInfo).insert "app1" demoPodInfo),
          [Call.ListPods (apis.markerFilter demoApi), Call.InspectPod "pod-1"])) ∧
    ∃ result : List apis.PodInfo,
      rproxy.List demoCache =
        (.ok result, [Call.ListPods (apis.markerFilter demoApi), Call.InspectPod "pod-1"]) ∧
      (result.map (·.Subdomain)).Perm demoCache.rpMap.keys ∧
      (result.map (·.Subdomain)).Nodup ∧
      (result.map (·.Subdomain)).Sorted (fun a b => charsLess a.data b.data = true) ∧
      (∀ info ∈ result, ∀ v,
        ((∅ : GoMap apis.PodInfo).insert "app1" demoPodInfo).lookup info.Subdomain = some v →
        info = v) ∧
      (∀ info ∈ result,
        ((∅ : GoMap apis.PodInfo).insert "app1" demoPodInfo).lookup info.Subdomain = none →
        info = rproxy.placeholder info.Subdomain ∧ info.Running = false) :=
  ⟨⟨fun keys => List.reverse_perm keys, by rfl⟩,
   List_sorted_entries demoCache ((∅ : GoMap apis.PodInfo).insert "app1" demoPodInfo)
     [Call.ListPods (apis.markerFilter demoApi), Call.InspectPod "pod-1"]
     (fun keys => List.reverse_perm keys) (by rfl)⟩

theorem start_reloads_then_job_witness :
    demoApi.dbusConn.Reload = none ∧
    (apis.startUnit demoApi "app1").2 =
      [Call.Reload,
       Call.RestartUnit (demoApi.opts.Specific ++ "-" ++ ("app1" ++ ".service")) "replace"] :=
  ⟨rfl, (start_reloads_then_job demoApi "app1").2.1 rfl⟩

theorem job_result_decides_witness :
    (demoApi.dbusConn.Reload = none ∧
      demoApi.dbusConn.RestartUnit (apis.withPrefix demoApi ("app1" ++ ".service")) "replace" =
        .ok "done" ∧
      demoApi.dbusConn.StopUnit (apis.withPrefix demoApi ("app1" ++ ".service")) "replace" =
        .ok "done") ∧
    (apis.startUnit demoApi "app1").1 = .ok () ∧ (apis.Stop demoApi "app1").1 = .ok () :=
  ⟨⟨rfl, rfl, rfl⟩, ((job_result_decides demoApi "app1" "done").1 rfl rfl).1.1 rfl,
   ((job_result_decides demoApi "app1" "done").2 rfl).1 rfl⟩

/-! ## Binding of the env form values -/

theorem demo_Bind_pairs :
    forms.Envs.Bind [] "env" ["X=1", "Y=a=b", "Z="] [] =
      .ok ([{ Key := "X", Val := "1" }, { Key := "Y", Val := "a" }, { Key := "Z", Val := "" }],
           [{ FieldNames := ["env"], Classification := "EnvParseError",
              Message := "cannot parse Env for: Y=a=b" }]) := by
  decide

theorem splitChars_length_of_mem (sep : Char) (l : List Char) (h : sep ∈ l) :
    2 ≤ (splitChars sep l).length := by
  induction l with
  | nil => simp at h
  | cons c cs ih =>
    unfold splitChars
    by_cases hc : c = sep
    · rw [if_pos hc, List.length_cons]
      have := List.length_pos.mpr (splitChars_ne_nil sep cs)
      omega
    · rw [if_neg hc]
      have hcs : sep ∈ cs := by
        rcases List.mem_cons.mp h with e | e
        · exact absurd e.symm hc
        · exact e
      have hlen := ih hcs
      cases hsplit : splitChars sep cs with
      | nil => exact absurd hsplit (splitChars_ne_nil sep cs)
      | cons p ps =>
        rw [hsplit] at hlen
        simpa using hlen

/-- A value without `=` makes `Bind` panic, whatever was bound before it in
the same call and whatever follows. -/
theorem Envs_Bind_cons_no_separator (e : forms.Envs) (fieldName v : String)
    (strVals : List String) (errs : binding.Errors) (h : '=' ∉ v.data) :
    forms.Envs.Bind e fieldName (v :: strVals) errs = .panic := by
  unfold forms.Envs.Bind
  simp only [stringsSplit, splitChars_no_sep _ _ h]
  rfl

/-- A value with `=` is appended as the pair of the first two parts of its
split, and is recorded as an error as well when the split has more than two
parts; the loop then goes on. -/
theorem Envs_Bind_cons_separator (e : forms.Envs) (fieldName v : String)
    (strVals : List String) (errs : binding.Errors) (h : '=' ∈ v.data) :
    forms.Envs.Bind e fieldName (v :: strVals) errs =
      forms.Envs.Bind
        (e ++ [{ Key := (stringsSplit v '=').getD 0 "", Val := (stringsSplit v '=').getD 1 "" }])
        fieldName strVals
        (if (stringsSplit v '=').length ≠ 2 then
          binding.Errors.Add errs [fieldName] "EnvParseError" ("cannot parse Env for: " ++ v)
        else errs) := by
  have hlen : 2 ≤ (stringsSplit v '=').length := by
    unfold stringsSplit
    rw [List.length_map]
    exact splitChars_length_of_mem _ _ h
  rcases hs : stringsSplit v '=' with _ | ⟨k, _ | ⟨w, rest⟩⟩
  · rw [hs] at hlen
    simp at hlen
  · rw [hs] at hlen
    simp at hlen
  · conv_lhs => unfold forms.Envs.Bind
    simp only [hs]
    simp

theorem Envs_Bind_panic_iff (e : forms.Envs) (fieldName : String) (strVals : List String)
    (errs : binding.Errors) :
    forms.Envs.Bind e fieldName strVals errs = .panic ↔ ∃ v ∈ strVals, '=' ∉ v.data := by
  induction strVals generalizing e errs with
  | nil => simp [forms.Envs.Bind]
  | cons v rest ih =>
    by_cases h : '=' ∈ v.data
    · rw [Envs_Bind_cons_separator e fieldName v rest errs h, ih]
      constructor
      · rintro ⟨w, hw, hno⟩
        exact ⟨w, List.mem_cons_of_mem _ hw, hno⟩
      · rintro ⟨w, hw, hno⟩
        rcases List.mem_cons.mp hw with rfl | hw'
        · exact absurd h hno
        · exact ⟨w, hw', hno⟩
    · rw [Envs_Bind_cons_no_separator e fieldName v rest errs h]
      exact ⟨fun _ => ⟨v, List.mem_cons_self _ _, h⟩, fun _ => rfl⟩

/-- When every value contains `=`, `Bind` returns: each value is appended,
in order, as the pair of the first two parts of its split, and the values
whose split has more than two parts are recorded, in order, as
`EnvParseError`. -/
theorem Envs_Bind_returns (e : forms.Envs) (fieldName : String) (strVals : List String)
    (errs : binding.Errors) (h : ∀ v ∈ strVals, '=' ∈ v.data) :
    forms.Envs.Bind e fieldName strVals errs =
      .ok (e ++ strVals.map (fun v =>
              ({ Key := (stringsSplit v '=').getD 0 "",
                 Val := (stringsSplit v '=').getD 1 "" } : forms.Env)),
           errs ++ (strVals.filter (fun v => (stringsSplit v '=').length ≠ 2)).map (fun v =>
              ({ FieldNames := [fieldName], Classification := "EnvParseError",
                 Message := "cannot parse Env for: " ++ v } : binding.Error))) := by
  induction strVals generalizing e errs with
  | nil => simp [forms.Envs.Bind]
  | cons v rest ih =>
    rw [Envs_Bind_cons_separator e fieldName v rest errs (h v (List.mem_cons_self _ _)),
      ih _ _ (fun w hw => h w (List.mem_cons_of_mem _ hw))]
    by_cases hlen : (stringsSplit v '=').length = 2
    · simp [hlen, List.filter_cons]
    · simp [hlen, List.filter_cons, binding.Errors.Add]

/-- C11, at the failing input: the value `abc` has no `=`, its split has the
single part `abc`, so `kv[1]` is out of range and `Bind` panics instead of
returning with an `EnvParseError`; the same happens when well-formed values
come before it. -/
theorem Envs_Bind_value_without_separator :
    stringsSplit "abc" '=' = ["abc"] ∧
    (stringsSplit "abc" '=')[1]? = none ∧
    forms.Envs.Bind [] "env" ["abc"] [] = .panic ∧
    forms.Envs.Bind [] "env" ["X=1", "abc"] [] = .panic := by
  decide

end Phantasma
